import Mathlib

set_option maxRecDepth 8000

/-!
Shallow embedding of the AI production-scheduling repository
(`data_model.py`, `dynamic_scheduler.py`, `scheduling.py`, `main.py`).

Conventions of the embedding:
* Python dictionaries that are only read by key are modelled as partial maps
  `String → Option Int`; `dict.get(k, d)` becomes `getD`.
* Python dictionaries that are iterated over (BOM components, equipment loads
  inside the GA fitness function) are modelled as association lists, which also
  preserves the insertion-iteration order of a Python dict.
* Machine throughput and all other `float` fields are modelled as exact
  rationals; `int(x)` on a non-negative quotient is `Int.toNat ⌊x⌋`.
* `datetime` delivery dates are modelled as rational hours since the epoch,
  which is exactly the quantity the genetic-algorithm fitness function derives
  from them (`(delivery_date - datetime(1970,1,1)).total_seconds() / 3600`).
* Fallible Python code (KeyError, ZeroDivisionError, ValueError on
  `random.randint` with an empty range) returns `Option`, `none` marking the
  raised exception.
* The pseudo-random generator (Python's global `random`) is modelled as an
  abstract stream of naturals together with a cursor.
-/

/-- A Python dict read by key: partial map from string keys to ints. -/
def Dict : Type := String → Option Int

/-- `d.get(k, v)` of a Python dict. -/
def getD (d : Dict) (k : String) (v : Int) : Int := (d k).getD v

/-- `k in d` for a Python dict. -/
def hasKey (d : Dict) (k : String) : Prop := d k ≠ none

instance (d : Dict) (k : String) : Decidable (hasKey d k) := by
  unfold hasKey; infer_instance

/-- Write `d[k] = v` into a Python dict (the key need not exist yet). -/
def setKey (d : Dict) (k : String) (v : Int) : Dict :=
  fun k2 => if k2 = k then some v else d k2

/-- `data_model.Equipment`: 设备信息模型. -/
structure Equipment where
  id : String
  name : String
  process_type : String
  production_rate : ℚ
  qualified_rate : ℚ
  unqualified_rate : ℚ
deriving DecidableEq

/-- `data_model.Order`: 订单信息模型.  `delivery_date` is kept as rational
hours since the 1970 epoch (the parsed `datetime` in the source). -/
structure Order where
  id : String
  product_id : String
  quantity : ℕ
  delivery_date : ℚ
  priority : Int
  status : String := "pending"
deriving DecidableEq

/-- `data_model.BOM`: 物料清单模型.  `components` is the items list of the
Python dict `{原料ID: 数量}` in insertion order. -/
structure BOM where
  product_id : String
  components : List (String × ℕ)
  process_sequence : List String
deriving DecidableEq

/-- `data_model.Inventory`: 库存模型. -/
structure Inventory where
  raw_materials : Dict
  finished_products : Dict

/-- `Inventory.check_availability`: `raw_materials.get(material_id, 0) >= quantity`. -/
def check_availability (inv : Inventory) (material_id : String) (quantity : Int) : Bool :=
  getD inv.raw_materials material_id 0 ≥ quantity

/-- `Inventory.reserve_materials`.  The Python body is
`if check_availability: raw_materials[material_id] -= quantity; return True`
`else: return False`.  Reading `raw_materials[material_id]` of an absent key
raises `KeyError`, modelled as `none`. -/
def reserve_materials (inv : Inventory) (material_id : String) (quantity : Int) :
    Option (Bool × Inventory) :=
  if check_availability inv material_id quantity then
    match inv.raw_materials material_id with
    | some v => some (true,
        { inv with raw_materials := setKey inv.raw_materials material_id (v - quantity) })
    | none => none
  else
    some (false, inv)

/-- `SchedulingModel._get_processing_time`:
`max(1, int(order.quantity / equipment.production_rate))`.  The same
expression is inlined in `GeneticAlgorithmScheduler.create_individual`,
`GeneticAlgorithmScheduler.mutate` and `IncrementalScheduler.add_new_order`.
For a rate with numerator `n` and denominator `d` the exact quotient is
`quantity·d / n`, and Python's `int()` truncates it toward zero, which is
`Int.tdiv`.  (`max(1, ·)` then clips every non-positive case to 1 exactly as
the source does.) -/
def get_processing_time (order : Order) (equipment : Equipment) : ℕ :=
  max 1 (Int.toNat
    (Int.tdiv (order.quantity * equipment.production_rate.den) equipment.production_rate.num))

/-- Sanity check of the `int()` translation: for any positive rate,
`get_processing_time` equals `max(1, ⌊quantity/rate⌋)` on exact rationals. -/
theorem get_processing_time_eq_floor (o : Order) (e : Equipment)
    (h : 0 < e.production_rate) :
    get_processing_time o e =
      max 1 (Int.toNat (Int.floor ((o.quantity : ℚ) / e.production_rate))) := by
  have hnum : 0 < e.production_rate.num := Rat.num_pos.mpr h
  have hq : (o.quantity : ℚ) / e.production_rate =
      ((o.quantity * e.production_rate.den : ℤ) : ℚ) / ((e.production_rate.num.toNat : ℕ) : ℚ) := by
    have hcast : ((e.production_rate.num.toNat : ℕ) : ℚ) = ((e.production_rate.num : ℤ) : ℚ) := by
      exact_mod_cast Int.toNat_of_nonneg hnum.le
    have h3 : e.production_rate
        = ((e.production_rate.num : ℤ) : ℚ) / ((e.production_rate.den : ℕ) : ℚ) :=
      (Rat.num_div_den _).symm
    rw [hcast]
    conv_lhs => rw [h3]
    rw [div_div_eq_mul_div]
    push_cast
    ring
  unfold get_processing_time
  rw [hq, Rat.floor_intCast_div_natCast,
    Int.toNat_of_nonneg hnum.le,
    Int.tdiv_eq_ediv (by positivity) hnum.le]

/-- Concrete order used to exhibit the floor/ceil divergence of C1. -/
def orderC1 : Order :=
  { id := "O1", product_id := "P1", quantity := 15, delivery_date := 0, priority := 1 }

/-- Concrete machine used to exhibit the floor/ceil divergence of C1. -/
def eqC1 : Equipment :=
  { id := "M1", name := "m1", process_type := "A", production_rate := 10,
    qualified_rate := 1, unqualified_rate := 0 }

/-- C1: the claim states that every assignment's duration is
`max(1, ceil(quantity / throughput))`.  The code computes
`max(1, int(quantity / throughput))`, which truncates the quotient downward
(despite the adjacent comment `向上取整`, "round up").  For quantity 15 on a
10-per-hour machine the code yields 1 hour while the claimed ceiling duration
is 2 hours. -/
theorem processing_time_truncates_instead_of_ceiling :
    get_processing_time orderC1 eqC1 = 1 ∧
      max 1 (Int.ceil ((orderC1.quantity : ℚ) / eqC1.production_rate)) = 2 := by
  constructor
  · decide
  · have h : ((orderC1.quantity : ℚ) / eqC1.production_rate) = 3 / 2 := by
      norm_num [orderC1, eqC1]
    rw [h]
    have h2 : Int.ceil ((3 : ℚ) / 2) = 2 := by
      rw [Int.ceil_eq_iff]
      norm_num
    rw [h2]
    decide

/-! ## Dynamic order release (`dynamic_scheduler.DynamicOrderRelease`) -/

/-- The mutable state of a `DynamicOrderRelease` instance: the machine list,
the projected raw-material inventory (a dict), and the projected per-machine
load in hours (a dict keyed by machine id). -/
structure DynamicOrderRelease where
  equipment : List Equipment
  inventory : Dict
  equipment_load : Dict

/-- `self.CRITICAL_EQUIPMENT_THRESHOLD = 0.8`. -/
def CRITICAL_EQUIPMENT_THRESHOLD : ℚ := 8 / 10

/-- `DynamicOrderRelease.can_release_order`.  Materials first
(`available < total_required` rejects), then every machine whose process type
occurs in the BOM sequence is checked against
`utilization = load.get(id, 0) / (24*30) > threshold`. -/
def can_release_order (s : DynamicOrderRelease) (order : Order) (bom : BOM) : Bool :=
  (bom.components.all fun mc =>
    !decide (getD s.inventory mc.1 0 < (mc.2 : ℤ) * (order.quantity : ℤ))) &&
  ((s.equipment.filter fun eq => bom.process_sequence.contains eq.process_type).all fun eq =>
    !decide ((getD s.equipment_load eq.id 0 : ℚ) / (24 * 30) > CRITICAL_EQUIPMENT_THRESHOLD))

/-- One iteration of the `update_inventory` loop: if the material is a key of
the projection, subtract `required_per_unit * order.quantity` from it
(warning-only when the balance goes negative; absent keys are left absent). -/
def consume_component (order : Order) (inv : Dict) (mc : String × ℕ) : Dict :=
  match inv mc.1 with
  | some v => setKey inv mc.1 (v - (mc.2 : ℤ) * (order.quantity : ℤ))
  | none => inv

/-- `DynamicOrderRelease.update_inventory`: the loop over `bom.components`. -/
def update_inventory (inventory : Dict) (order : Order) (bom : BOM) : Dict :=
  bom.components.foldl (consume_component order) inventory

/-- Boundary-case admission state for C3: one machine whose projected load is
576 hours, so that its utilization is exactly `576 / 720 = 0.8`. -/
def relBoundary : DynamicOrderRelease :=
  { equipment := [{ id := "E1", name := "e1", process_type := "A", production_rate := 10,
                    qualified_rate := 1, unqualified_rate := 0 }],
    inventory := fun _ => none,
    equipment_load := fun k => if k = "E1" then some 576 else none }

/-- Order used in the C3 boundary case. -/
def orderBoundary : Order :=
  { id := "OB", product_id := "PB", quantity := 1, delivery_date := 0, priority := 1 }

/-- BOM used in the C3 boundary case: no components, one process "A". -/
def bomBoundary : BOM := { product_id := "PB", components := [], process_sequence := ["A"] }

/-- C3: `can_release_order` passes iff (a) each BOM material's projected
inventory covers `required_per_unit × quantity` and (b) every machine whose
process type occurs in the BOM sequence has `load / 720 ≤ 0.8`; and the
boundary utilization `576 / 720 = 0.8` passes. -/
theorem can_release_order_iff :
    (∀ (s : DynamicOrderRelease) (order : Order) (bom : BOM),
      can_release_order s order bom = true ↔
        ((∀ mc ∈ bom.components,
            (mc.2 : ℤ) * (order.quantity : ℤ) ≤ getD s.inventory mc.1 0) ∧
          ∀ eq ∈ s.equipment, eq.process_type ∈ bom.process_sequence →
            (getD s.equipment_load eq.id 0 : ℚ) / (24 * 30) ≤ CRITICAL_EQUIPMENT_THRESHOLD)) ∧
      can_release_order relBoundary orderBoundary bomBoundary = true := by
  constructor
  · intro s order bom
    simp only [can_release_order, Bool.and_eq_true, List.all_eq_true, List.mem_filter,
      Bool.not_eq_true', decide_eq_false_iff_not, not_lt]
    constructor
    · rintro ⟨h1, h2⟩
      refine ⟨fun mc hmc => h1 mc hmc, fun eq heq htype => ?_⟩
      exact h2 eq ⟨heq, by simpa using htype⟩
    · rintro ⟨h1, h2⟩
      refine ⟨fun mc hmc => h1 mc hmc, fun eq heq => ?_⟩
      exact h2 eq heq.1 (by simpa using heq.2)
  · norm_num [can_release_order, relBoundary, orderBoundary, bomBoundary,
      CRITICAL_EQUIPMENT_THRESHOLD, getD]

/-- Keys not touched by the consumption loop keep their value. -/
theorem foldl_consume_untouched (order : Order) :
    ∀ (comps : List (String × ℕ)) (inv : Dict) (k : String),
      k ∉ comps.map Prod.fst → comps.foldl (consume_component order) inv k = inv k := by
  intro comps
  induction comps with
  | nil => intro inv k _; rfl
  | cons mc rest ih =>
    intro inv k h
    simp only [List.map_cons, List.mem_cons, not_or] at h
    obtain ⟨h1, h2⟩ := h
    simp only [List.foldl_cons]
    rw [ih _ _ h2]
    unfold consume_component
    cases hv : inv mc.1 with
    | none => rfl
    | some v => simp [setKey, h1]

/-- Pointwise description of the consumption loop for duplicate-free
component key lists: a key present in both the projection and the components
is decremented once; every other key is untouched. -/
theorem foldl_consume_lookup (order : Order) :
    ∀ (comps : List (String × ℕ)) (inv : Dict) (m : String),
      (comps.map Prod.fst).Nodup →
      comps.foldl (consume_component order) inv m =
        match inv m, comps.lookup m with
        | some v, some c => some (v - (c : ℤ) * (order.quantity : ℤ))
        | _, _ => inv m := by
  intro comps
  induction comps with
  | nil =>
    intro inv m _
    simp only [List.foldl_nil, List.lookup_nil]
    cases inv m <;> rfl
  | cons mc rest ih =>
    intro inv m hnd
    rcases mc with ⟨a, c⟩
    simp only [List.map_cons, List.nodup_cons] at hnd
    obtain ⟨hni, hnd2⟩ := hnd
    simp only [List.foldl_cons]
    by_cases hm : m = a
    · subst hm
      rw [foldl_consume_untouched order rest _ m hni]
      have hl : List.lookup m ((m, c) :: rest) = some c := by
        simp [List.lookup]
      rw [hl]
      unfold consume_component
      cases hv : inv m with
      | none => simp [hv]
      | some v => simp [hv, setKey]
    · have hinv : consume_component order inv (a, c) m = inv m := by
        unfold consume_component
        cases hv : inv a with
        | none => rfl
        | some v => simp [setKey, hm]
      have hl : List.lookup m ((a, c) :: rest) = List.lookup m rest := by
        have hba : (m == a) = false := beq_eq_false_iff_ne.mpr hm
        simp [List.lookup, hba]
      rw [ih _ _ hnd2, hinv, hl]

/-- `lookup` finds the value of a key's unique occurrence. -/
theorem lookup_of_mem_nodup :
    ∀ (comps : List (String × ℕ)) (m : String) (c : ℕ),
      (comps.map Prod.fst).Nodup → (m, c) ∈ comps → comps.lookup m = some c := by
  intro comps
  induction comps with
  | nil => intro m c _ h; cases h
  | cons mc rest ih =>
    intro m c hnd hmem
    rcases mc with ⟨a, v⟩
    simp only [List.map_cons, List.nodup_cons] at hnd
    obtain ⟨hni, hnd2⟩ := hnd
    rcases List.mem_cons.mp hmem with heq | htail
    · cases heq
      simp [List.lookup]
    · have hma : m ≠ a := by
        intro heq
        subst heq
        exact hni (by simpa using List.mem_map_of_mem Prod.fst htail)
      have hba : (m == a) = false := beq_eq_false_iff_ne.mpr hma
      simp only [List.lookup, hba]
      exact ih m c hnd2 htail

/-- `lookup` only returns values of present pairs. -/
theorem mem_of_lookup_eq_some :
    ∀ (comps : List (String × ℕ)) (m : String) (c : ℕ),
      comps.lookup m = some c → (m, c) ∈ comps := by
  intro comps
  induction comps with
  | nil => intro m c h; cases h
  | cons mc rest ih =>
    intro m c h
    rcases mc with ⟨a, v⟩
    by_cases hma : m = a
    · subst hma
      have hl : List.lookup m ((m, v) :: rest) = some v := by simp [List.lookup]
      rw [hl] at h
      simp only [Option.some.injEq] at h
      subst h
      exact List.mem_cons_self _ _
    · have hba : (m == a) = false := beq_eq_false_iff_ne.mpr hma
      simp only [List.lookup, hba] at h
      exact List.mem_cons_of_mem _ (ih m c h)

/-- A released order passed the material half of `can_release_order`. -/
theorem can_release_materials (s : DynamicOrderRelease) (order : Order) (bom : BOM)
    (h : can_release_order s order bom = true) :
    ∀ mc ∈ bom.components, (mc.2 : ℤ) * (order.quantity : ℤ) ≤ getD s.inventory mc.1 0 := by
  intro mc hmc
  have h1 := (Bool.and_eq_true _ _ |>.mp h).1
  rw [List.all_eq_true] at h1
  have := h1 mc hmc
  simpa [not_lt] using this

/-- C4: committing a released order (one that passed `can_release_order`)
changes the projection pointwise by `- quantity * components[m]` under the
`get(…, 0)` view of the dict, and the decrement of a tracked material happens
unconditionally, even when the balance goes negative. -/
theorem update_inventory_pointwise (s : DynamicOrderRelease) (order : Order) (bom : BOM)
    (hnd : (bom.components.map Prod.fst).Nodup) :
    (can_release_order s order bom = true →
      ∀ m, getD (update_inventory s.inventory order bom) m 0 =
        getD s.inventory m 0
          - (order.quantity : ℤ) * (((bom.components.lookup m).getD 0 : ℕ) : ℤ)) ∧
    (∀ m c, (m, c) ∈ bom.components → s.inventory m ≠ none →
      update_inventory s.inventory order bom m =
        some (getD s.inventory m 0 - (c : ℤ) * (order.quantity : ℤ))) := by
  constructor
  · intro hrel m
    simp only [update_inventory, getD]
    rw [foldl_consume_lookup order bom.components s.inventory m hnd]
    cases hv : s.inventory m with
    | some v =>
      cases hc : bom.components.lookup m with
      | some c =>
        simp only [getD, hv, Option.getD_some]
        ring
      | none =>
        simp only [getD, hv, Option.getD_some, Option.getD_none, Nat.cast_zero,
          mul_zero, sub_zero]
    | none =>
      cases hc : bom.components.lookup m with
      | some c =>
        have hmem := mem_of_lookup_eq_some bom.components m c hc
        have hle := can_release_materials s order bom hrel (m, c) hmem
        rw [getD, hv] at hle
        simp only [Option.getD_none] at hle
        have hge : (0 : ℤ) ≤ (c : ℤ) * (order.quantity : ℤ) := by positivity
        have hzero : (c : ℤ) * (order.quantity : ℤ) = 0 := le_antisymm hle hge
        simp only [getD, hv, Option.getD_none, Option.getD_some]
        rw [mul_comm] at hzero
        rw [hzero, sub_zero]
      | none =>
        simp only [getD, hv, Option.getD_none, Option.getD_some, Nat.cast_zero,
          mul_zero, sub_zero]
  · intro m c hmem hsome
    unfold update_inventory
    rw [foldl_consume_lookup order bom.components s.inventory m hnd,
      lookup_of_mem_nodup bom.components m c hnd hmem]
    cases hv : s.inventory m with
    | none => exact absurd hv hsome
    | some v => simp [getD, hv]

/-- Admission state for the C4 witness: inventory tracks material "M" at 10. -/
def relC4 : DynamicOrderRelease :=
  { equipment := [],
    inventory := fun k => if k = "M" then some 10 else none,
    equipment_load := fun _ => none }

/-- Order for the C4 witness: quantity 2. -/
def orderC4 : Order :=
  { id := "O4", product_id := "P4", quantity := 2, delivery_date := 0, priority := 1 }

/-- BOM for the C4 witness: 3 units of "M" per product unit. -/
def bomC4 : BOM := { product_id := "P4", components := [("M", 3)], process_sequence := [] }

/-- Witness for C4 at a concrete released order: the projection of "M" drops
from 10 to `10 - 2·3 = 4`. -/
theorem update_inventory_pointwise_witness :
    ((bomC4.components.map Prod.fst).Nodup ∧ can_release_order relC4 orderC4 bomC4 = true) ∧
      getD (update_inventory relC4.inventory orderC4 bomC4) "M" 0 =
        getD relC4.inventory "M" 0
          - (orderC4.quantity : ℤ) * (((bomC4.components.lookup "M").getD 0 : ℕ) : ℤ) :=
  ⟨⟨by decide, by decide⟩,
    (update_inventory_pointwise relC4 orderC4 bomC4 (by decide)).1 (by decide) "M"⟩

/-! ## `Inventory.reserve_materials` (C10) -/

/-- An inventory with no tracked raw materials at all. -/
def invEmpty : Inventory :=
  { raw_materials := fun _ => none, finished_products := fun _ => none }

/-- C10 counterexample: for an untracked material and quantity 0 the
availability check passes (`get("M001", 0) = 0 ≥ 0`) yet the decrement
`raw_materials["M001"] -= 0` raises `KeyError` (modelled as `none`), so
`reserve_materials` neither returns `true` nor decrements a balance, against
the claim's "for every material id and quantity". -/
theorem reserve_materials_keyerror :
    check_availability invEmpty "M001" 0 = true ∧ reserve_materials invEmpty "M001" 0 = none := by
  constructor
  · decide
  · rfl

/-- C10 (amended): whenever the quantity is positive or the material is
tracked, `reserve_materials` returns `true` and decrements the on-hand balance
by exactly the requested quantity when the balance covers it, and otherwise
returns `false` leaving the inventory entirely unchanged. -/
theorem reserve_materials_spec (inv : Inventory) (m : String) (q : Int)
    (h : 0 < q ∨ inv.raw_materials m ≠ none) :
    (check_availability inv m q = true →
      ∃ inv2, reserve_materials inv m q = some (true, inv2) ∧
        inv2.raw_materials m = some (getD inv.raw_materials m 0 - q) ∧
        (∀ k, k ≠ m → inv2.raw_materials k = inv.raw_materials k) ∧
        inv2.finished_products = inv.finished_products) ∧
    (check_availability inv m q = false → reserve_materials inv m q = some (false, inv)) ∧
    (check_availability inv m q = true ↔ q ≤ getD inv.raw_materials m 0) := by
  refine ⟨?_, ?_, ?_⟩
  · intro hchk
    cases hv : inv.raw_materials m with
    | none =>
      rcases h with hq | hne
      · exfalso
        have : q ≤ getD inv.raw_materials m 0 := by
          simpa [check_availability, ge_iff_le] using hchk
        rw [getD, hv] at this
        simp only [Option.getD_none] at this
        omega
      · exact absurd hv hne
    | some v =>
      refine ⟨{ inv with raw_materials := setKey inv.raw_materials m (v - q) }, ?_, ?_, ?_, rfl⟩
      · unfold reserve_materials
        rw [if_pos hchk, hv]
      · simp [setKey, getD, hv]
      · intro k hk
        simp [setKey, hk]
  · intro hchk
    unfold reserve_materials
    rw [if_neg]
    simp [hchk]
  · unfold check_availability
    simp [ge_iff_le]

/-- Inventory for the C10 witness: 5 units of "A" on hand. -/
def invStock : Inventory :=
  { raw_materials := fun k => if k = "A" then some 5 else none,
    finished_products := fun _ => none }

/-- Witness for the amended C10 at a concrete input: reserving 3 of 5 units
succeeds and leaves `5 - 3`. -/
theorem reserve_materials_spec_witness :
    (0 < (3 : ℤ) ∨ invStock.raw_materials "A" ≠ none) ∧
      check_availability invStock "A" 3 = true ∧
      ∃ inv2, reserve_materials invStock "A" 3 = some (true, inv2) ∧
        inv2.raw_materials "A" = some (getD invStock.raw_materials "A" 0 - 3) ∧
        (∀ k, k ≠ "A" → inv2.raw_materials k = invStock.raw_materials k) ∧
        inv2.finished_products = invStock.finished_products :=
  ⟨Or.inl (by decide), by decide,
    (reserve_materials_spec invStock "A" 3 (Or.inl (by decide))).1 (by decide)⟩

/-! ## Plans and the incremental scheduler (`dynamic_scheduler.IncrementalScheduler`) -/

/-- One process assignment inside a plan entry: the dict
`{process_type, equipment_id, start_time, end_time}`. -/
structure ProcAsgn where
  process_type : String
  equipment_id : String
  start_time : Int
  end_time : Int
deriving DecidableEq

/-- One plan entry: the dict
`{order_id, product_id, quantity, delivery_date, processes}`. -/
structure PlanEntry where
  order_id : String
  product_id : String
  quantity : ℕ
  delivery_date : ℚ
  processes : List ProcAsgn
deriving DecidableEq

/-- The `boms` dict `{product_id: BOM}`, looked up by product id. -/
def lookup_bom (boms : List BOM) (product_id : String) : Option BOM :=
  boms.find? fun b => b.product_id == product_id

/-- The state of an `IncrementalScheduler` instance. -/
structure IncrementalScheduler where
  base_schedule : List PlanEntry
  orders : List Order
  equipment : List Equipment
  boms : List BOM
  inventory : Inventory
  equipment_load : Dict

/-- `_update_equipment_load` / `DynamicOrderRelease.update_equipment_load`:
reset every machine id to 0, then add `end_time - start_time` of every
process whose machine id is tracked. -/
def load_from_schedule (equipment : List Equipment) (schedule : List PlanEntry) : Dict :=
  schedule.foldl
    (fun load entry =>
      entry.processes.foldl
        (fun load2 p =>
          match load2 p.equipment_id with
          | some v => setKey load2 p.equipment_id (v + (p.end_time - p.start_time))
          | none => load2)
        load)
    (fun k => if equipment.any (fun eq => eq.id == k) then some 0 else none)

/-- All `end_time` values of a schedule
(`[process["end_time"] for order in base for process in order["processes"]]`). -/
def all_end_times (schedule : List PlanEntry) : List Int :=
  schedule.bind fun entry => entry.processes.map fun p => p.end_time

/-- `max([...] or [0])`: the schedule's maximum end time, 0 for an empty one. -/
def max_end_time (schedule : List PlanEntry) : Int :=
  match all_end_times schedule with
  | [] => 0
  | t :: ts => ts.foldl max t

/-- The availability test inside `_find_available_time`: hour `time` is free on
machine `eqid` iff no scheduled process of the base plan satisfies
`equipment_id == eqid and not (end_time <= time or start_time >= time + 1)`. -/
def is_available (base : List PlanEntry) (eqid : String) (time : Int) : Bool :=
  base.all fun entry => entry.processes.all fun p =>
    !(decide (p.equipment_id = eqid) &&
      !(decide (p.end_time ≤ time) || decide (time + 1 ≤ p.start_time)))

/-- The linear search of `_find_available_time`, with the remaining window
length as fuel; when the loop exhausts the window the original `start_time` is
returned unchanged. -/
def find_loop (base : List PlanEntry) (eqid : String) : ℕ → Int → Int → Int
  | 0, _, orig => orig
  | fuel + 1, time, orig =>
    if is_available base eqid time then time else find_loop base eqid fuel (time + 1) orig

/-- `IncrementalScheduler._find_available_time`: scan
`range(start_time, start_time + 24*7)` for the first free hour, falling back
to `start_time`. -/
def find_available_time (base : List PlanEntry) (equipment : Equipment) (start_time : Int) : Int :=
  find_loop base equipment.id (24 * 7) start_time start_time

/-- `best_eq = min(available_equipment, key=lambda eq: load.get(eq.id, 0))`:
Python's `min` keeps the first of equally loaded machines, which is the
left fold below. -/

def select_min_load (load : Dict) (e : Equipment) (es : List Equipment) : Equipment :=
  es.foldl (fun b eq => if getD load eq.id 0 < getD load b.id 0 then eq else b) e

/-- The placement loop of `add_new_order` over the BOM process sequence,
carrying `current_time` and the accumulated `equipment_load`.  A process type
with no qualified machine is skipped (`continue`); otherwise the least-loaded
machine receives the process at `_find_available_time(best_eq, current_time)`
for `max(1, int(quantity / rate))` hours, after which `current_time` advances
to the new end time and the machine's accumulated load grows. -/
def place_processes (base : List PlanEntry) (equipment : List Equipment) (order : Order) :
    List String → Int → Dict → List ProcAsgn
  | [], _, _ => []
  | proc :: rest, current_time, load =>
    match equipment.filter (fun eq => eq.process_type == proc) with
    | [] => place_processes base equipment order rest current_time load
    | e :: es =>
      { process_type := proc,
        equipment_id := (select_min_load load e es).id,
        start_time := find_available_time base (select_min_load load e es) current_time,
        end_time := find_available_time base (select_min_load load e es) current_time
          + (get_processing_time order (select_min_load load e es) : ℤ) } ::
        place_processes base equipment order rest
          (find_available_time base (select_min_load load e es) current_time
            + (get_processing_time order (select_min_load load e es) : ℤ))
          (setKey load (select_min_load load e es).id
            (getD load (select_min_load load e es).id 0
              + (get_processing_time order (select_min_load load e es) : ℤ)))

/-- `IncrementalScheduler.add_new_order`: reject when the BOM is missing or a
material is short; otherwise place every process starting from the plan's
maximum end time and append exactly one new entry. -/
def add_new_order (s : IncrementalScheduler) (new_order : Order) : List PlanEntry :=
  match lookup_bom s.boms new_order.product_id with
  | none => s.base_schedule
  | some bom =>
    if bom.components.all (fun mc =>
        check_availability s.inventory mc.1 ((mc.2 : ℤ) * (new_order.quantity : ℤ))) then
      s.base_schedule ++
        [{ order_id := new_order.id, product_id := new_order.product_id,
           quantity := new_order.quantity, delivery_date := new_order.delivery_date,
           processes := place_processes s.base_schedule s.equipment new_order
             bom.process_sequence (max_end_time s.base_schedule) s.equipment_load }]
    else s.base_schedule

/-- The seed of a left `max` fold never exceeds the result. -/
theorem foldl_max_init (l : List Int) : ∀ a : Int, a ≤ l.foldl max a := by
  induction l with
  | nil => intro a; exact le_refl a
  | cons b l ih =>
    intro a
    simp only [List.foldl_cons]
    exact le_trans (le_max_left a b) (ih (max a b))

/-- Every member of a list bounds below its left `max` fold. -/
theorem foldl_max_mem (l : List Int) : ∀ (a x : Int), x ∈ l → x ≤ l.foldl max a := by
  induction l with
  | nil => intro a x h; cases h
  | cons b l ih =>
    intro a x h
    simp only [List.foldl_cons]
    rcases List.mem_cons.mp h with rfl | hm
    · exact le_trans (le_max_right a x) (foldl_max_init l (max a x))
    · exact ih (max a b) x hm

/-- Every scheduled end time is at most `max_end_time`. -/
theorem end_time_le_max (base : List PlanEntry) (entry : PlanEntry) (p : ProcAsgn)
    (h1 : entry ∈ base) (h2 : p ∈ entry.processes) :
    p.end_time ≤ max_end_time base := by
  have hmem : p.end_time ∈ all_end_times base := by
    unfold all_end_times
    exact List.mem_bind.mpr ⟨entry, h1, List.mem_map_of_mem _ h2⟩
  unfold max_end_time
  cases hl : all_end_times base with
  | nil => rw [hl] at hmem; cases hmem
  | cons a l =>
    rw [hl] at hmem
    rcases List.mem_cons.mp hmem with rfl | hm
    · exact foldl_max_init l p.end_time
    · exact foldl_max_mem l a p.end_time hm

/-- Any hour at or after the plan's maximum end time is free on every machine. -/
theorem is_available_of_max_end (base : List PlanEntry) (eqid : String) (t : Int)
    (h : max_end_time base ≤ t) : is_available base eqid t = true := by
  unfold is_available
  rw [List.all_eq_true]
  intro entry hent
  rw [List.all_eq_true]
  intro p hp
  have hend : p.end_time ≤ t := le_trans (end_time_le_max base entry p hent hp) h
  have hd : decide (p.end_time ≤ t) = true := decide_eq_true hend
  simp [hd]

/-- When the requested hour itself is free, the linear search returns it. -/
theorem find_available_time_of_available (base : List PlanEntry) (e : Equipment) (t : Int)
    (h : is_available base e.id t = true) : find_available_time base e t = t := by
  show find_loop base e.id (167 + 1) t t = t
  unfold find_loop
  rw [h]
  simp

/-- Behaviour of the placement loop when started at or after the plan's
maximum end time: processes are emitted in BOM-sequence order (skipping types
with no machine), every start is free and no earlier than the running time,
durations are positive, the first start equals the running time, and each
start equals its predecessor's end. -/
theorem place_processes_spec (base : List PlanEntry) (equipment : List Equipment) (order : Order) :
    ∀ (seq : List String) (t : Int) (load : Dict),
      max_end_time base ≤ t →
      ((place_processes base equipment order seq t load).map (fun p => p.process_type) =
          seq.filter
            (fun proc => !(equipment.filter (fun eq => eq.process_type == proc)).isEmpty)) ∧
      (∀ p ∈ place_processes base equipment order seq t load,
          t ≤ p.start_time ∧ p.start_time < p.end_time ∧
          is_available base p.equipment_id p.start_time = true) ∧
      (∀ p, (place_processes base equipment order seq t load).head? = some p →
          p.start_time = t) ∧
      List.Chain' (fun a b => b.start_time = a.end_time)
        (place_processes base equipment order seq t load) := by
  intro seq
  induction seq with
  | nil =>
    intro t load _
    refine ⟨rfl, ?_, ?_, ?_⟩ <;> simp [place_processes]
  | cons proc rest ih =>
    intro t load ht
    cases hf : equipment.filter (fun eq => eq.process_type == proc) with
    | nil =>
      have hplace : place_processes base equipment order (proc :: rest) t load =
          place_processes base equipment order rest t load := by
        simp only [place_processes, hf]
      have hfe : (!(equipment.filter (fun eq => eq.process_type == proc)).isEmpty) = false := by
        rw [hf]
        rfl
      obtain ⟨ihm, ihp, ihh, ihc⟩ := ih t load ht
      refine ⟨?_, ?_, ?_, ?_⟩
      · rw [hplace, List.filter_cons, hfe]
        simpa using ihm
      · rw [hplace]; exact ihp
      · rw [hplace]; exact ihh
      · rw [hplace]; exact ihc
    | cons e es =>
      have hplace : place_processes base equipment order (proc :: rest) t load =
          { process_type := proc,
            equipment_id := (select_min_load load e es).id,
            start_time := find_available_time base (select_min_load load e es) t,
            end_time := find_available_time base (select_min_load load e es) t
              + (get_processing_time order (select_min_load load e es) : ℤ) } ::
            place_processes base equipment order rest
              (find_available_time base (select_min_load load e es) t
                + (get_processing_time order (select_min_load load e es) : ℤ))
              (setKey load (select_min_load load e es).id
                (getD load (select_min_load load e es).id 0
                  + (get_processing_time order (select_min_load load e es) : ℤ))) := by
        simp only [place_processes, hf]
      have hav : is_available base (select_min_load load e es).id t = true :=
        is_available_of_max_end base _ t ht
      have hstart : find_available_time base (select_min_load load e es) t = t :=
        find_available_time_of_available base _ t hav
      have hpt : (1 : ℤ) ≤ (get_processing_time order (select_min_load load e es) : ℤ) := by
        have h1 : 1 ≤ get_processing_time order (select_min_load load e es) :=
          le_max_left 1 _
        exact_mod_cast h1
      rw [hplace, hstart]
      have ht2 : max_end_time base ≤
          t + (get_processing_time order (select_min_load load e es) : ℤ) := by
        linarith
      obtain ⟨ihm, ihp, ihh, ihc⟩ :=
        ih (t + (get_processing_time order (select_min_load load e es) : ℤ))
          (setKey load (select_min_load load e es).id
            (getD load (select_min_load load e es).id 0
              + (get_processing_time order (select_min_load load e es) : ℤ))) ht2
      have hfe : (!(equipment.filter (fun eq => eq.process_type == proc)).isEmpty) = true := by
        rw [hf]
        rfl
      refine ⟨?_, ?_, ?_, ?_⟩
      · simp only [List.map_cons, List.filter_cons, hfe, if_true]
        rw [ihm]
      · intro p hp
        rcases List.mem_cons.mp hp with rfl | hmem
        · exact ⟨le_refl t, by simpa using hpt, hav⟩
        · obtain ⟨h1, h2, h3⟩ := ihp p hmem
          exact ⟨by linarith, h2, h3⟩
      · intro p hp
        simp only [List.head?_cons, Option.some.injEq] at hp
        rw [← hp]
      · rw [List.chain'_cons']
        exact ⟨fun b hb => ihh b hb, ihc⟩

/-- C7: when `add_new_order` accepts an order (BOM found, materials cover it),
the new processes are placed in BOM-sequence order, each at the earliest free
hour of its machine starting from the plan's maximum end time and then from
the previous process's end (the chain below), so no new assignment overlaps
any assignment of the existing plan on its machine. -/
theorem add_new_order_earliest_fit (s : IncrementalScheduler) (new_order : Order) (bom : BOM)
    (hbom : lookup_bom s.boms new_order.product_id = some bom)
    (hmat : bom.components.all (fun mc =>
      check_availability s.inventory mc.1 ((mc.2 : ℤ) * (new_order.quantity : ℤ))) = true) :
    ∃ procs,
      add_new_order s new_order = s.base_schedule ++
        [{ order_id := new_order.id, product_id := new_order.product_id,
           quantity := new_order.quantity, delivery_date := new_order.delivery_date,
           processes := procs }] ∧
      procs.map (fun p => p.process_type) =
        bom.process_sequence.filter
          (fun proc => !(s.equipment.filter (fun eq => eq.process_type == proc)).isEmpty) ∧
      (∀ p ∈ procs,
        max_end_time s.base_schedule ≤ p.start_time ∧
        p.start_time < p.end_time ∧
        is_available s.base_schedule p.equipment_id p.start_time = true ∧
        ∀ entry ∈ s.base_schedule, ∀ bp ∈ entry.processes,
          bp.equipment_id = p.equipment_id →
          min bp.end_time p.end_time ≤ max bp.start_time p.start_time) ∧
      (∀ p, procs.head? = some p → p.start_time = max_end_time s.base_schedule) ∧
      List.Chain' (fun a b => b.start_time = a.end_time) procs := by
  have hadd : add_new_order s new_order = s.base_schedule ++
      [{ order_id := new_order.id, product_id := new_order.product_id,
         quantity := new_order.quantity, delivery_date := new_order.delivery_date,
         processes := place_processes s.base_schedule s.equipment new_order
           bom.process_sequence (max_end_time s.base_schedule) s.equipment_load }] := by
    simp only [add_new_order, hbom]
    rw [if_pos hmat]
  obtain ⟨hm, hp, hh, hc⟩ :=
    place_processes_spec s.base_schedule s.equipment new_order bom.process_sequence
      (max_end_time s.base_schedule) s.equipment_load (le_refl _)
  refine ⟨_, hadd, hm, ?_, hh, hc⟩
  intro p hpmem
  obtain ⟨h1, h2, h3⟩ := hp p hpmem
  refine ⟨h1, h2, h3, ?_⟩
  intro entry hent bp hbp _
  have hend : bp.end_time ≤ max_end_time s.base_schedule :=
    end_time_le_max s.base_schedule entry bp hent hbp
  have hbs : bp.end_time ≤ p.start_time := le_trans hend h1
  calc min bp.end_time p.end_time ≤ bp.end_time := min_le_left _ _
    _ ≤ p.start_time := hbs
    _ ≤ max bp.start_time p.start_time := le_max_right _ _

/-- C8: `add_new_order` always returns the input plan followed by at most one
new entry, and it returns the input plan itself exactly when the BOM is
missing or some material is insufficient. -/
theorem add_new_order_frame (s : IncrementalScheduler) (new_order : Order) :
    (∃ tail, add_new_order s new_order = s.base_schedule ++ tail ∧
      (tail = [] ∨ ∃ entry, tail = [entry] ∧ entry.order_id = new_order.id)) ∧
    (add_new_order s new_order = s.base_schedule ↔
      (lookup_bom s.boms new_order.product_id = none ∨
        ∃ bom, lookup_bom s.boms new_order.product_id = some bom ∧
          ∃ mc ∈ bom.components,
            check_availability s.inventory mc.1
              ((mc.2 : ℤ) * (new_order.quantity : ℤ)) = false)) := by
  cases hbom : lookup_bom s.boms new_order.product_id with
  | none =>
    have hadd : add_new_order s new_order = s.base_schedule := by
      simp only [add_new_order, hbom]
    refine ⟨⟨[], by simpa using hadd, Or.inl rfl⟩, ?_⟩
    simp [hadd]
  | some bom =>
    cases hall : bom.components.all (fun mc =>
        check_availability s.inventory mc.1 ((mc.2 : ℤ) * (new_order.quantity : ℤ))) with
    | false =>
      have hadd : add_new_order s new_order = s.base_schedule := by
        simp only [add_new_order, hbom]
        rw [if_neg]
        simp [hall]
      obtain ⟨mc, hmc, hfail⟩ : ∃ mc ∈ bom.components,
          check_availability s.inventory mc.1 ((mc.2 : ℤ) * (new_order.quantity : ℤ)) = false := by
        obtain ⟨mc, hmc, hnot⟩ := List.all_eq_false.mp hall
        exact ⟨mc, hmc, by simpa using hnot⟩
      refine ⟨⟨[], by simpa using hadd, Or.inl rfl⟩, ?_⟩
      constructor
      · intro _
        exact Or.inr ⟨bom, rfl, mc, hmc, hfail⟩
      · intro _
        exact hadd
    | true =>
      have hadd : add_new_order s new_order = s.base_schedule ++
          [{ order_id := new_order.id, product_id := new_order.product_id,
             quantity := new_order.quantity, delivery_date := new_order.delivery_date,
             processes := place_processes s.base_schedule s.equipment new_order
               bom.process_sequence (max_end_time s.base_schedule) s.equipment_load }] := by
        simp only [add_new_order, hbom]
        rw [if_pos hall]
      refine ⟨⟨_, hadd, Or.inr ⟨_, rfl, rfl⟩⟩, ?_⟩
      constructor
      · intro h
        exfalso
        rw [hadd] at h
        have hlen := congrArg List.length h
        simp at hlen
      · rintro (h | ⟨bom2, hbom2, mc, hmc, hfail⟩)
        · simp at h
        · injection hbom2 with hb
          subst hb
          have hmct := List.all_eq_true.mp hall mc hmc
          rw [hfail] at hmct
          cases hmct

/-- Incremental-insertion scenario state: machine "M1" is occupied on [0, 10)
by an existing plan entry, "M1" is the only machine, the arriving product "P"
needs one process "A" and no materials. -/
def sC7 : IncrementalScheduler :=
  { base_schedule := [{ order_id := "O0", product_id := "P0", quantity := 100,
                        delivery_date := 0,
                        processes := [{ process_type := "A", equipment_id := "M1",
                                        start_time := 0, end_time := 10 }] }],
    orders := [],
    equipment := [{ id := "M1", name := "m1", process_type := "A", production_rate := 1,
                    qualified_rate := 1, unqualified_rate := 0 }],
    boms := [{ product_id := "P", components := [], process_sequence := ["A"] }],
    inventory := { raw_materials := fun _ => none, finished_products := fun _ => none },
    equipment_load := fun k => if k = "M1" then some 10 else none }

/-- The new order inserted in the C7 scenario. -/
def orderC7 : Order :=
  { id := "O1", product_id := "P", quantity := 5, delivery_date := 0, priority := 1 }

/-- The BOM of product "P" in the C7 scenario. -/
def bomC7 : BOM := { product_id := "P", components := [], process_sequence := ["A"] }

/-- Witness for C7: in the scenario with "M1" occupied on [0, 10), the accepted
new order's every process starts at hour ≥ 10. -/
theorem add_new_order_earliest_fit_witness :
    (lookup_bom sC7.boms orderC7.product_id = some bomC7 ∧
      bomC7.components.all (fun mc =>
        check_availability sC7.inventory mc.1 ((mc.2 : ℤ) * (orderC7.quantity : ℤ))) = true) ∧
    ∃ procs,
      add_new_order sC7 orderC7 = sC7.base_schedule ++
        [{ order_id := orderC7.id, product_id := orderC7.product_id,
           quantity := orderC7.quantity, delivery_date := orderC7.delivery_date,
           processes := procs }] ∧
      ∀ p ∈ procs, (10 : Int) ≤ p.start_time := by
  refine ⟨⟨by decide, by decide⟩, ?_⟩
  obtain ⟨procs, h1, _, h3, _, _⟩ :=
    add_new_order_earliest_fit sC7 orderC7 bomC7 (by decide) (by decide)
  refine ⟨procs, h1, ?_⟩
  intro p hp
  have hmax : max_end_time sC7.base_schedule = 10 := by decide
  have hle := (h3 p hp).1
  rw [hmax] at hle
  exact hle

/-! ## Exact scheduler (`scheduling.SchedulingModel`) -/

/-- `self.TIME_HORIZON = 24 * 30` hours. -/
def TIME_HORIZON : ℕ := 24 * 30

/-- One problem instance handed to the schedulers
(orders, equipment, boms, inventory). -/
structure SchedInstance where
  orders : List Order
  equipment : List Equipment
  boms : List BOM
  inventory : Inventory

/-- Out-of-range fallback; the model only evaluates indices bounded by
`varExists`, which keeps them inside the lists. -/
def defaultOrder : Order :=
  { id := "", product_id := "", quantity := 0, delivery_date := 0, priority := 0 }

/-- Out-of-range fallback machine. -/
def defaultEquipment : Equipment :=
  { id := "", name := "", process_type := "", production_rate := 1,
    qualified_rate := 1, unqualified_rate := 0 }

/-- The order at position `oi` of the instance's order list. -/
def orderAt (inst : SchedInstance) (oi : ℕ) : Order := inst.orders.getD oi defaultOrder

/-- The machine at position `ei` of the instance's equipment list. -/
def eqAt (inst : SchedInstance) (ei : ℕ) : Equipment := inst.equipment.getD ei defaultEquipment

/-- The process sequence of the order's BOM; empty when the BOM is missing,
in which case `build_model` creates no variable for the order. -/
def bomSeq (inst : SchedInstance) (oi : ℕ) : List String :=
  match lookup_bom inst.boms (orderAt inst oi).product_id with
  | some bom => bom.process_sequence
  | none => []

/-- The component list of the order's BOM (empty when missing). -/
def bomComponents (inst : SchedInstance) (oi : ℕ) : List (String × ℕ) :=
  match lookup_bom inst.boms (orderAt inst oi).product_id with
  | some bom => bom.components
  | none => []

/-- `x_{order.id}_{eq.id}_{t}` is a variable of the model iff the machine's
process type occurs in the order's BOM sequence and `t` lies in
`range(TIME_HORIZON)` (`build_model`). -/
def varExists (inst : SchedInstance) (oi ei t : ℕ) : Prop :=
  oi < inst.orders.length ∧ ei < inst.equipment.length ∧ t < TIME_HORIZON ∧
    (eqAt inst ei).process_type ∈ bomSeq inst oi

instance (inst : SchedInstance) (oi ei t : ℕ) : Decidable (varExists inst oi ei t) := by
  unfold varExists
  infer_instance

/-- The 0/1 value a binary solver assignment gives to a variable; names that
are not variables of the model contribute 0 (the `if var_name in
self.variables` guards of the source). -/
def varXN (inst : SchedInstance) (x : ℕ → ℕ → ℕ → Bool) (oi ei t : ℕ) : ℕ :=
  if varExists inst oi ei t ∧ x oi ei t = true then 1 else 0

/-- `range(a, b)` of Python on naturals (`a` already clamped at 0). -/
def pyRange (a b : ℕ) : List ℕ := (List.range (b - a)).map (fun i => a + i)

/-- `_add_process_constraints`: for every order and every process of its BOM
sequence, the variables over the qualified machines and all start hours sum
to exactly 1. -/
def processConstraints (inst : SchedInstance) (x : ℕ → ℕ → ℕ → Bool) : Prop :=
  ∀ oi, oi < inst.orders.length →
    ∀ proc ∈ bomSeq inst oi,
      (((List.range inst.equipment.length).filter
          (fun ei => (eqAt inst ei).process_type == proc)).map
        (fun ei => ((List.range TIME_HORIZON).map (fun t => varXN inst x oi ei t)).sum)).sum = 1

/-- `_add_equipment_constraints`: for every machine and every hour `time`,
the variables of all orders whose start hour lies in
`range(max(0, time - 10), time + 10)` sum to at most 1. -/
def equipmentConstraints (inst : SchedInstance) (x : ℕ → ℕ → ℕ → Bool) : Prop :=
  ∀ ei, ei < inst.equipment.length → ∀ time, time < TIME_HORIZON →
    ((List.range inst.orders.length).map
      (fun oi => ((pyRange (time - 10) (time + 10)).map
        (fun t => varXN inst x oi ei t)).sum)).sum ≤ 1

/-- `_add_sequence_constraints`: for consecutive processes `i`, `i+1` of an
order's BOM sequence, every pair of machines of those types and every pair of
hours with `t2 < t1 + p(order, c_eq)` satisfies
`x[o,c_eq,t1] + x[o,n_eq,t2] ≤ 1`. -/
def sequenceConstraints (inst : SchedInstance) (x : ℕ → ℕ → ℕ → Bool) : Prop :=
  ∀ oi, oi < inst.orders.length →
    ∀ i, i < (bomSeq inst oi).length → i + 1 < (bomSeq inst oi).length →
      ∀ ci, ci < inst.equipment.length →
        (eqAt inst ci).process_type = (bomSeq inst oi).getD i "" →
        ∀ ni, ni < inst.equipment.length →
          (eqAt inst ni).process_type = (bomSeq inst oi).getD (i + 1) "" →
          ∀ t1, t1 < TIME_HORIZON → ∀ t2, t2 < TIME_HORIZON →
            t2 < t1 + get_processing_time (orderAt inst oi) (eqAt inst ci) →
            varXN inst x oi ci t1 + varXN inst x oi ni t2 ≤ 1

/-- `_add_material_constraints`: when the inventory snapshot cannot cover the
order's full requirement, every variable of that order is pinned to 0. -/
def materialConstraints (inst : SchedInstance) (x : ℕ → ℕ → ℕ → Bool) : Prop :=
  ∀ oi, oi < inst.orders.length →
    ∀ ei, ei < inst.equipment.length →
      (eqAt inst ei).process_type ∈ bomSeq inst oi →
      ∀ t, t < TIME_HORIZON →
        ¬((bomComponents inst oi).all (fun mc =>
            check_availability inst.inventory mc.1
              ((mc.2 : ℤ) * ((orderAt inst oi).quantity : ℤ))) = true) →
        varXN inst x oi ei t = 0

/-- A 0/1 assignment is feasible for the built model iff it meets all four
constraint families of `build_model`. -/
def feasible (inst : SchedInstance) (x : ℕ → ℕ → ℕ → Bool) : Prop :=
  processConstraints inst x ∧ equipmentConstraints inst x ∧
    sequenceConstraints inst x ∧ materialConstraints inst x

/-- The objective `Σ x[o,e,t] · (t + p(o,e))` of `build_model`. -/
def objective (inst : SchedInstance) (x : ℕ → ℕ → ℕ → Bool) : ℕ :=
  ((List.range inst.orders.length).map (fun oi =>
    ((List.range inst.equipment.length).map (fun ei =>
      ((List.range TIME_HORIZON).map (fun t =>
        varXN inst x oi ei t *
          (t + get_processing_time (orderAt inst oi) (eqAt inst ei)))).sum)).sum)).sum

/-- Decidability of implications between decidable propositions, used to
evaluate the constraint families on concrete instances. -/
instance (priority := low) {p q : Prop} [dp : Decidable p] [dq : Decidable q] :
    Decidable (p → q) :=
  match dp with
  | isTrue hp =>
    match dq with
    | isTrue hq => isTrue fun _ => hq
    | isFalse hq => isFalse fun h => hq (h hp)
  | isFalse hp => isTrue fun h => absurd h hp

instance (inst : SchedInstance) (x : ℕ → ℕ → ℕ → Bool) :
    Decidable (processConstraints inst x) := by
  unfold processConstraints
  infer_instance

instance (inst : SchedInstance) (x : ℕ → ℕ → ℕ → Bool) :
    Decidable (equipmentConstraints inst x) := by
  unfold equipmentConstraints
  infer_instance

set_option synthInstance.maxSize 40000 in
set_option synthInstance.maxHeartbeats 4000000 in
instance (inst : SchedInstance) (x : ℕ → ℕ → ℕ → Bool) :
    Decidable (sequenceConstraints inst x) := by
  unfold sequenceConstraints
  infer_instance

set_option synthInstance.maxSize 2000 in
set_option synthInstance.maxHeartbeats 1000000 in
instance (inst : SchedInstance) (x : ℕ → ℕ → ℕ → Bool) :
    Decidable (materialConstraints inst x) := by
  unfold materialConstraints
  infer_instance

instance (inst : SchedInstance) (x : ℕ → ℕ → ℕ → Bool) : Decidable (feasible inst x) := by
  unfold feasible
  infer_instance

/-- A solve that reports `Optimal` returns a feasible assignment of minimum
objective value. -/
def isOptimal (inst : SchedInstance) (x : ℕ → ℕ → ℕ → Bool) : Prop :=
  feasible inst x ∧ ∀ y, feasible inst y → objective inst x ≤ objective inst y

/-- One record of `SchedulingModel.solution` as produced by
`_extract_solution`. -/
structure SolutionItem where
  order_id : String
  equipment_id : String
  process_type : String
  start_time : ℕ
  end_time : ℕ
deriving DecidableEq

/-- `_extract_solution`: one record per variable with value 1, with
`end_time = start_time + p(order, equipment)` (the enumeration order of the
variables dict does not matter for the stated properties). -/
def extract_solution (inst : SchedInstance) (x : ℕ → ℕ → ℕ → Bool) : List SolutionItem :=
  (List.range inst.orders.length).bind fun oi =>
    (List.range inst.equipment.length).bind fun ei =>
      (List.range TIME_HORIZON).filterMap fun t =>
        if varExists inst oi ei t ∧ x oi ei t = true then
          some { order_id := (orderAt inst oi).id,
                 equipment_id := (eqAt inst ei).id,
                 process_type := (eqAt inst ei).process_type,
                 start_time := t,
                 end_time := t + get_processing_time (orderAt inst oi) (eqAt inst ei) }
        else none

/-- A member of a list is at most the sum of the mapped list (ℕ). -/
theorem single_le_sum_map {α : Type} :
    ∀ (l : List α) (f : α → ℕ) (a : α), a ∈ l → f a ≤ (l.map f).sum := by
  intro l
  induction l with
  | nil => intro f a h; cases h
  | cons b l ih =>
    intro f a h
    simp only [List.map_cons, List.sum_cons]
    rcases List.mem_cons.mp h with rfl | hm
    · exact Nat.le_add_right _ _
    · exact le_trans (ih f a hm) (Nat.le_add_left _ _)

/-- Two distinct members of a duplicate-free list contribute separately to
the sum of the mapped list (ℕ). -/
theorem pair_le_sum_map {α : Type} [DecidableEq α] :
    ∀ (l : List α) (f : α → ℕ) (a b : α), l.Nodup → a ∈ l → b ∈ l → a ≠ b →
      f a + f b ≤ (l.map f).sum := by
  intro l
  induction l with
  | nil => intro f a b _ ha _ _; cases ha
  | cons c l ih =>
    intro f a b hnd ha hb hne
    simp only [List.nodup_cons] at hnd
    obtain ⟨hcl, hnd2⟩ := hnd
    simp only [List.map_cons, List.sum_cons]
    rcases List.mem_cons.mp ha with rfl | hma
    · rcases List.mem_cons.mp hb with rfl | hmb
      · exact absurd rfl hne
      · have := single_le_sum_map l f b hmb
        omega
    · rcases List.mem_cons.mp hb with rfl | hmb
      · have := single_le_sum_map l f a hma
        omega
      · have := ih f a b hnd2 hma hmb hne
        omega

/-- A positive mapped sum has a positive member (ℕ). -/
theorem exists_pos_of_sum_pos {α : Type} :
    ∀ (l : List α) (f : α → ℕ), 1 ≤ (l.map f).sum → ∃ a ∈ l, 1 ≤ f a := by
  intro l
  induction l with
  | nil => intro f h; simp at h
  | cons b l ih =>
    intro f h
    by_cases hb : 1 ≤ f b
    · exact ⟨b, List.mem_cons_self _ _, hb⟩
    · have hb0 : f b = 0 := by omega
      simp only [List.map_cons, List.sum_cons, hb0, Nat.zero_add] at h
      obtain ⟨a, ha, hfa⟩ := ih f h
      exact ⟨a, List.mem_cons_of_mem _ ha, hfa⟩

/-- Membership in a Python `range(a, b)` slice. -/
theorem mem_pyRange_of (a b x : ℕ) (h1 : a ≤ x) (h2 : x < b) : x ∈ pyRange a b := by
  unfold pyRange
  exact List.mem_map.mpr ⟨x - a, List.mem_range.mpr (by omega), by omega⟩

/-- Python `range` slices carry no duplicates. -/
theorem pyRange_nodup (a b : ℕ) : (pyRange a b).Nodup := by
  unfold pyRange
  exact (List.nodup_range _).map fun x y h => by omega

/-- `varXN` values are 0 or 1; value 1 means the variable exists and is set. -/
theorem varXN_eq_one_iff (inst : SchedInstance) (x : ℕ → ℕ → ℕ → Bool) (oi ei t : ℕ) :
    varXN inst x oi ei t = 1 ↔ (varExists inst oi ei t ∧ x oi ei t = true) := by
  unfold varXN
  split
  · simp only [eq_self_iff_true, true_iff]
    assumption
  · simp only [Nat.zero_ne_one, false_iff]
    assumption

/-- Any two set variables on one machine start at least 20 hours apart:
otherwise some window `[time-10, time+10)` contains both starts and the
machine constraint at that hour is violated. -/
theorem starts_separated (inst : SchedInstance) (x : ℕ → ℕ → ℕ → Bool)
    (heq : equipmentConstraints inst x) (oi1 oi2 ei t1 t2 : ℕ)
    (h1 : varXN inst x oi1 ei t1 = 1) (h2 : varXN inst x oi2 ei t2 = 1)
    (hne : oi1 ≠ oi2 ∨ t1 ≠ t2) :
    t1 + 20 ≤ t2 ∨ t2 + 20 ≤ t1 := by
  by_contra hcon
  push_neg at hcon
  obtain ⟨hc1, hc2⟩ := hcon
  obtain ⟨hex1, _⟩ := (varXN_eq_one_iff inst x oi1 ei t1).mp h1
  obtain ⟨hex2, _⟩ := (varXN_eq_one_iff inst x oi2 ei t2).mp h2
  obtain ⟨hn1, hm1, ht1, _⟩ := hex1
  obtain ⟨hn2, _, ht2, _⟩ := hex2
  have hw1 : t1 ∈ pyRange (max t1 t2 - 9 - 10) (max t1 t2 - 9 + 10) := by
    apply mem_pyRange_of <;> omega
  have hw2 : t2 ∈ pyRange (max t1 t2 - 9 - 10) (max t1 t2 - 9 + 10) := by
    apply mem_pyRange_of <;> omega
  have htw : max t1 t2 - 9 < TIME_HORIZON := by
    unfold TIME_HORIZON at *
    omega
  have hcons := heq ei hm1 (max t1 t2 - 9) htw
  by_cases hoi : oi1 = oi2
  · subst hoi
    have htne : t1 ≠ t2 := by tauto
    have hin : varXN inst x oi1 ei t1 + varXN inst x oi1 ei t2 ≤
        ((pyRange (max t1 t2 - 9 - 10) (max t1 t2 - 9 + 10)).map
          (fun t => varXN inst x oi1 ei t)).sum :=
      pair_le_sum_map _ _ t1 t2 (pyRange_nodup _ _) hw1 hw2 htne
    have houter : ((pyRange (max t1 t2 - 9 - 10) (max t1 t2 - 9 + 10)).map
        (fun t => varXN inst x oi1 ei t)).sum ≤
        ((List.range inst.orders.length).map
          (fun oi => ((pyRange (max t1 t2 - 9 - 10) (max t1 t2 - 9 + 10)).map
            (fun t => varXN inst x oi ei t)).sum)).sum :=
      single_le_sum_map (List.range inst.orders.length)
        (fun oi => ((pyRange (max t1 t2 - 9 - 10) (max t1 t2 - 9 + 10)).map
          (fun t => varXN inst x oi ei t)).sum) oi1 (List.mem_range.mpr hn1)
    omega
  · have hx1le : varXN inst x oi1 ei t1 ≤
        ((pyRange (max t1 t2 - 9 - 10) (max t1 t2 - 9 + 10)).map
          (fun t => varXN inst x oi1 ei t)).sum :=
      single_le_sum_map _ (fun t => varXN inst x oi1 ei t) t1 hw1
    have hx2le : varXN inst x oi2 ei t2 ≤
        ((pyRange (max t1 t2 - 9 - 10) (max t1 t2 - 9 + 10)).map
          (fun t => varXN inst x oi2 ei t)).sum :=
      single_le_sum_map _ (fun t => varXN inst x oi2 ei t) t2 hw2
    have hin1 : (1 : ℕ) ≤ ((pyRange (max t1 t2 - 9 - 10) (max t1 t2 - 9 + 10)).map
        (fun t => varXN inst x oi1 ei t)).sum := by
      omega
    have hin2 : (1 : ℕ) ≤ ((pyRange (max t1 t2 - 9 - 10) (max t1 t2 - 9 + 10)).map
        (fun t => varXN inst x oi2 ei t)).sum := by
      omega
    have houter : ((pyRange (max t1 t2 - 9 - 10) (max t1 t2 - 9 + 10)).map
          (fun t => varXN inst x oi1 ei t)).sum +
        ((pyRange (max t1 t2 - 9 - 10) (max t1 t2 - 9 + 10)).map
          (fun t => varXN inst x oi2 ei t)).sum ≤
        ((List.range inst.orders.length).map
          (fun oi => ((pyRange (max t1 t2 - 9 - 10) (max t1 t2 - 9 + 10)).map
            (fun t => varXN inst x oi ei t)).sum)).sum :=
      pair_le_sum_map (List.range inst.orders.length)
        (fun oi => ((pyRange (max t1 t2 - 9 - 10) (max t1 t2 - 9 + 10)).map
          (fun t => varXN inst x oi ei t)).sum) oi1 oi2 (List.nodup_range _)
        (List.mem_range.mpr hn1) (List.mem_range.mpr hn2) hoi
    omega

/-- Positions holding elements with equal images under a duplicate-free
projection coincide. -/
theorem index_eq_of_nodup_map {α β : Type} (l : List α) (f : α → β) (d : α)
    (hnd : (l.map f).Nodup) (i j : ℕ) (hi : i < l.length) (hj : j < l.length)
    (hf : f (l.getD i d) = f (l.getD j d)) : i = j := by
  have hgi : l.getD i d = l.get ⟨i, hi⟩ := List.getD_eq_get l d hi
  have hgj : l.getD j d = l.get ⟨j, hj⟩ := List.getD_eq_get l d hj
  have hmi : (l.map f).get ⟨i, by simpa using hi⟩ = f (l.get ⟨i, hi⟩) := by
    simp [List.get_map]
  have hmj : (l.map f).get ⟨j, by simpa using hj⟩ = f (l.get ⟨j, hj⟩) := by
    simp [List.get_map]
  have hget : (l.map f).get ⟨i, by simpa using hi⟩ = (l.map f).get ⟨j, by simpa using hj⟩ := by
    rw [hmi, hmj, ← hgi, ← hgj]
    exact hf
  have hfin := (List.Nodup.get_inj_iff hnd).mp hget
  exact congrArg Fin.val hfin

/-- Set variables give rise to extracted solution records. -/
theorem mem_extract_intro (inst : SchedInstance) (x : ℕ → ℕ → ℕ → Bool) (oi ei t : ℕ)
    (h : varExists inst oi ei t) (hx : x oi ei t = true) :
    ({ order_id := (orderAt inst oi).id, equipment_id := (eqAt inst ei).id,
       process_type := (eqAt inst ei).process_type, start_time := t,
       end_time := t + get_processing_time (orderAt inst oi) (eqAt inst ei) } : SolutionItem)
      ∈ extract_solution inst x := by
  unfold extract_solution
  obtain ⟨hn, hm, ht, -⟩ := id h
  apply List.mem_bind.mpr
  refine ⟨oi, List.mem_range.mpr hn, ?_⟩
  apply List.mem_bind.mpr
  refine ⟨ei, List.mem_range.mpr hm, ?_⟩
  apply List.mem_filterMap.mpr
  refine ⟨t, List.mem_range.mpr ht, ?_⟩
  rw [if_pos ⟨h, hx⟩]

/-- Extracted records come from set variables. -/
theorem mem_extract_elim (inst : SchedInstance) (x : ℕ → ℕ → ℕ → Bool) (a : SolutionItem)
    (ha : a ∈ extract_solution inst x) :
    ∃ oi ei t, varExists inst oi ei t ∧ x oi ei t = true ∧
      a = { order_id := (orderAt inst oi).id, equipment_id := (eqAt inst ei).id,
            process_type := (eqAt inst ei).process_type, start_time := t,
            end_time := t + get_processing_time (orderAt inst oi) (eqAt inst ei) } := by
  unfold extract_solution at ha
  obtain ⟨oi, hoi, ha2⟩ := List.mem_bind.mp ha
  obtain ⟨ei, hei, ha3⟩ := List.mem_bind.mp ha2
  obtain ⟨t, ht, hsome⟩ := List.mem_filterMap.mp ha3
  by_cases hc : varExists inst oi ei t ∧ x oi ei t = true
  · rw [if_pos hc] at hsome
    injection hsome with hitem
    exact ⟨oi, ei, t, hc.1, hc.2, hitem.symm⟩
  · rw [if_neg hc] at hsome
    cases hsome

/-- C2 (amended): in any feasible — in particular any optimally solved —
assignment, two distinct extracted records on the same machine whose durations
are at most 20 hours never overlap: the ±10-hour window constraint forces
distinct starts on one machine to lie at least 20 hours apart. -/
theorem capacity_law_small_durations (inst : SchedInstance) (x : ℕ → ℕ → ℕ → Bool)
    (hfeas : feasible inst x)
    (hnd : (inst.equipment.map (fun e => e.id)).Nodup) :
    ∀ a ∈ extract_solution inst x, ∀ b ∈ extract_solution inst x,
      a.equipment_id = b.equipment_id →
      (a.order_id ≠ b.order_id ∨ a.start_time ≠ b.start_time) →
      a.end_time - a.start_time ≤ 20 → b.end_time - b.start_time ≤ 20 →
      min a.end_time b.end_time ≤ max a.start_time b.start_time := by
  intro a ha b hb heqid hdist hda hdb
  obtain ⟨oi1, ei1, t1, hex1, hx1, ha2⟩ := mem_extract_elim inst x a ha
  obtain ⟨oi2, ei2, t2, hex2, hx2, hb2⟩ := mem_extract_elim inst x b hb
  subst ha2
  subst hb2
  dsimp only at heqid hdist hda hdb ⊢
  have hei : ei1 = ei2 :=
    index_eq_of_nodup_map inst.equipment (fun e => e.id) defaultEquipment hnd ei1 ei2
      hex1.2.1 hex2.2.1 heqid
  subst hei
  have hdist2 : oi1 ≠ oi2 ∨ t1 ≠ t2 := by
    rcases hdist with h | h
    · left
      intro he
      exact h (by rw [he])
    · right
      intro he
      exact h (by rw [he])
  have hsep := starts_separated inst x hfeas.2.1 oi1 oi2 ei1 t1 t2
    ((varXN_eq_one_iff inst x oi1 ei1 t1).mpr ⟨hex1, hx1⟩)
    ((varXN_eq_one_iff inst x oi2 ei1 t2).mpr ⟨hex2, hx2⟩) hdist2
  omega

/-- Two orders of quantity 10 for product "P" with one 1-per-hour machine
"M1": each processing time is 10 ≤ 20 hours. -/
def instCap : SchedInstance :=
  { orders := [{ id := "O1", product_id := "P", quantity := 10, delivery_date := 0, priority := 1 },
               { id := "O2", product_id := "P", quantity := 10, delivery_date := 0, priority := 1 }],
    equipment := [{ id := "M1", name := "m1", process_type := "A", production_rate := 1,
                    qualified_rate := 1, unqualified_rate := 0 }],
    boms := [{ product_id := "P", components := [], process_sequence := ["A"] }],
    inventory := { raw_materials := fun _ => none, finished_products := fun _ => none } }

/-- The assignment starting order 0 at hour 0 and order 1 at hour 20 on the
single machine. -/
def xTwo : ℕ → ℕ → ℕ → Bool := fun oi ei t =>
  (oi == 0 && ei == 0 && t == 0) || (oi == 1 && ei == 0 && t == 20)

set_option maxHeartbeats 4000000 in
/-- `xTwo` satisfies every model constraint of `instCap`. -/
theorem feasible_instCap_xTwo : feasible instCap xTwo := by decide

/-- The record extracted for order "O1" of `instCap` under `xTwo`. -/
def itemAcap : SolutionItem :=
  { order_id := "O1", equipment_id := "M1", process_type := "A",
    start_time := 0, end_time := 10 }

/-- The record extracted for order "O2" of `instCap` under `xTwo`. -/
def itemBcap : SolutionItem :=
  { order_id := "O2", equipment_id := "M1", process_type := "A",
    start_time := 20, end_time := 30 }

set_option maxHeartbeats 4000000 in
/-- Witness for the amended C2 at the concrete feasible two-order instance:
the two ≤ 20-hour assignments on "M1" do not overlap. -/
theorem capacity_law_small_durations_witness :
    (feasible instCap xTwo ∧ (instCap.equipment.map (fun e => e.id)).Nodup) ∧
      min itemAcap.end_time itemBcap.end_time ≤ max itemAcap.start_time itemBcap.start_time :=
  ⟨⟨feasible_instCap_xTwo, by decide⟩,
    capacity_law_small_durations instCap xTwo feasible_instCap_xTwo (by decide)
      itemAcap (by decide) itemBcap (by decide) (by decide) (Or.inl (by decide))
      (by decide) (by decide)⟩

/-- Two orders of quantity 720 for product "P" with one 1-per-hour machine:
each processing time is 720 hours, the full horizon. -/
def instHuge : SchedInstance :=
  { orders := [{ id := "O1", product_id := "P", quantity := 720, delivery_date := 0, priority := 1 },
               { id := "O2", product_id := "P", quantity := 720, delivery_date := 0, priority := 1 }],
    equipment := [{ id := "M1", name := "m1", process_type := "A", production_rate := 1,
                    qualified_rate := 1, unqualified_rate := 0 }],
    boms := [{ product_id := "P", components := [], process_sequence := ["A"] }],
    inventory := { raw_materials := fun _ => none, finished_products := fun _ => none } }

set_option maxHeartbeats 4000000 in
/-- `xTwo` also satisfies every model constraint of `instHuge`: the window
constraint only separates starts by 20 hours regardless of durations. -/
theorem feasible_instHuge_xTwo : feasible instHuge xTwo := by decide

/-- In `instHuge` every feasible assignment's extraction contains two records
of different orders on machine "M1" whose 720-hour intervals overlap: both
starts lie inside `[0, 720)` while both durations are 720. -/
theorem instHuge_extraction_overlaps (x : ℕ → ℕ → ℕ → Bool)
    (hfeas : feasible instHuge x) :
    ∃ a ∈ extract_solution instHuge x, ∃ b ∈ extract_solution instHuge x,
      a.order_id ≠ b.order_id ∧ a.equipment_id = b.equipment_id ∧
      max a.start_time b.start_time < min a.end_time b.end_time := by
  have hp := hfeas.1
  have hmem0 : "A" ∈ bomSeq instHuge 0 := by decide
  have hmem1 : "A" ∈ bomSeq instHuge 1 := by decide
  have hfil : (List.range instHuge.equipment.length).filter
      (fun ei => (eqAt instHuge ei).process_type == "A") = [0] := by decide
  have h0 := hp 0 (by decide) "A" hmem0
  have h1 := hp 1 (by decide) "A" hmem1
  rw [hfil] at h0 h1
  simp only [List.map_cons, List.map_nil, List.sum_cons, List.sum_nil, Nat.add_zero] at h0 h1
  obtain ⟨t1, -, ht1pos⟩ := exists_pos_of_sum_pos _ (fun t => varXN instHuge x 0 0 t) h0.ge
  obtain ⟨t2, -, ht2pos⟩ := exists_pos_of_sum_pos _ (fun t => varXN instHuge x 1 0 t) h1.ge
  have ht1p : 1 ≤ varXN instHuge x 0 0 t1 := ht1pos
  have ht2p : 1 ≤ varXN instHuge x 1 0 t2 := ht2pos
  have hb1 : varXN instHuge x 0 0 t1 ≤ 1 := by
    unfold varXN
    split <;> omega
  have hb2 : varXN instHuge x 1 0 t2 ≤ 1 := by
    unfold varXN
    split <;> omega
  obtain ⟨hex1, hxb1⟩ := (varXN_eq_one_iff instHuge x 0 0 t1).mp (by omega)
  obtain ⟨hex2, hxb2⟩ := (varXN_eq_one_iff instHuge x 1 0 t2).mp (by omega)
  refine ⟨_, mem_extract_intro instHuge x 0 0 t1 hex1 hxb1,
          _, mem_extract_intro instHuge x 1 0 t2 hex2 hxb2, ?_, rfl, ?_⟩
  · dsimp only
    decide
  · have hpt0 : get_processing_time (orderAt instHuge 0) (eqAt instHuge 0) = 720 := by decide
    have hpt1 : get_processing_time (orderAt instHuge 1) (eqAt instHuge 0) = 720 := by decide
    have ht1h : t1 < TIME_HORIZON := hex1.2.2.1
    have ht2h : t2 < TIME_HORIZON := hex2.2.2.1
    unfold TIME_HORIZON at ht1h ht2h
    dsimp only
    rw [hpt0, hpt1]
    omega

/-- C2 counterexample: on `instHuge` the model has feasible assignments, and
every optimal one — hence the plan extracted from an `Optimal` solve — puts
the two 720-hour orders on machine "M1" with overlapping `[start, end)`
intervals, because the equipment constraint's fixed ±10-hour window only
separates starts by 20 hours. -/
theorem optimal_plan_overlaps_on_instHuge :
    ∃ x, isOptimal instHuge x ∧
      ∃ a ∈ extract_solution instHuge x, ∃ b ∈ extract_solution instHuge x,
        a.order_id ≠ b.order_id ∧ a.equipment_id = b.equipment_id ∧
        max a.start_time b.start_time < min a.end_time b.end_time := by
  have hne : Set.Nonempty {n : ℕ | ∃ y, feasible instHuge y ∧ objective instHuge y = n} :=
    ⟨objective instHuge xTwo, xTwo, feasible_instHuge_xTwo, rfl⟩
  obtain ⟨x0, hx0feas, hx0obj⟩ := Nat.sInf_mem hne
  refine ⟨x0, ⟨hx0feas, ?_⟩, instHuge_extraction_overlaps x0 hx0feas⟩
  intro y hy
  rw [hx0obj]
  exact Nat.sInf_le ⟨y, hy, rfl⟩

/-! ## Heuristic scheduler (`scheduling.GeneticAlgorithmScheduler`) -/

/-- One per-order schedule of a GA chromosome: the dict
`{order_id, processes}` built by `create_individual`. -/
structure OrderSchedule where
  order_id : String
  processes : List ProcAsgn
deriving DecidableEq

/-- The process-global `random` generator, abstracted as a stream of naturals
with a cursor; each primitive call consumes one draw.  The GA never seeds or
parameterizes it. -/
structure Rng where
  stream : ℕ → ℕ
  pos : ℕ

/-- Consume one draw. -/
def draw (r : Rng) : ℕ × Rng := (r.stream r.pos, { r with pos := r.pos + 1 })

/-- `random.randint(a, b)` (both ends inclusive); raises `ValueError` when
`b < a` (empty range), modelled as `none`. -/
def randint (r : Rng) (a b : Int) : Option (Int × Rng) :=
  if b < a then none
  else some (a + (((draw r).1 % (b - a + 1).toNat : ℕ) : ℤ), (draw r).2)

/-- `random.random()`: a point of `[0, 1)` derived from one draw. -/
def randFloat (r : Rng) : ℚ × Rng :=
  ((((draw r).1 % 1000000 : ℕ) : ℚ) / 1000000, (draw r).2)

/-- Walk the weights, returning the first element whose cumulative weight
passes the drawn point (`random.choices(population, weights=probs)[0]`). -/
def pick_by_weight {α : Type} : List α → List ℚ → ℚ → α → α
  | [], _, _, d => d
  | a :: as, w :: ws, u, d => if u < w then a else pick_by_weight as ws (u - w) d
  | a :: _, [], _, _ => a

/-- `random.choices(l, weights)[0]`; raises on an empty population. -/
def weighted_choice {α : Type} (r : Rng) (l : List α) (weights : List ℚ) :
    Option (α × Rng) :=
  match l with
  | [] => none
  | a :: _ => some (pick_by_weight l weights (randFloat r).1 a, (randFloat r).2)

/-- The per-process loop of `create_individual` for one order: skip process
types with no machine, pick a machine with probability proportional to
throughput (float division by a zero rate total raises), draw a start hour
from `randint(0, TIME_HORIZON - processing_time)` (raising when the
processing time exceeds the horizon) and clamp it to `current_time`. -/
def create_order_schedule (equipment : List Equipment) (order : Order) :
    List String → Int → Rng → Option (List ProcAsgn × Rng)
  | [], _, r => some ([], r)
  | proc :: rest, current_time, r =>
    match equipment.filter (fun eq => eq.process_type == proc) with
    | [] => create_order_schedule equipment order rest current_time r
    | e :: es =>
      if ((e :: es).map (fun eq => eq.production_rate)).sum = 0 then none
      else
        match weighted_choice r (e :: es)
            ((e :: es).map (fun eq =>
              eq.production_rate / ((e :: es).map (fun eq2 => eq2.production_rate)).sum)) with
        | none => none
        | some (selected, r2) =>
          match randint r2 0 ((TIME_HORIZON : ℤ) - (get_processing_time order selected : ℤ)) with
          | none => none
          | some (v, r3) =>
            match create_order_schedule equipment order rest
                (max current_time v + (get_processing_time order selected : ℤ)) r3 with
            | none => none
            | some (ps, r4) =>
              some ({ process_type := proc, equipment_id := selected.id,
                      start_time := max current_time v,
                      end_time := max current_time v + (get_processing_time order selected : ℤ) }
                  :: ps, r4)

/-- The per-order loop of `create_individual`; `self.boms[order.product_id]`
raises `KeyError` when the BOM is missing. -/
def create_individual_go (equipment : List Equipment) (boms : List BOM) :
    List Order → Rng → Option (List OrderSchedule × Rng)
  | [], r => some ([], r)
  | o :: os, r =>
    match lookup_bom boms o.product_id with
    | none => none
    | some bom =>
      match create_order_schedule equipment o bom.process_sequence 0 r with
      | none => none
      | some (ps, r2) =>
        match create_individual_go equipment boms os r2 with
        | none => none
        | some (rest, r3) => some ({ order_id := o.id, processes := ps } :: rest, r3)

/-- `GeneticAlgorithmScheduler.create_individual`. -/
def create_individual (inst : SchedInstance) (r : Rng) :
    Option (List OrderSchedule × Rng) :=
  create_individual_go inst.equipment inst.boms inst.orders r

/-- `self.population_size = 50`. -/
def population_size : ℕ := 50

/-- The `[self.create_individual() for _ in range(population_size)]` loop. -/
def initialize_population_go (inst : SchedInstance) :
    ℕ → Rng → Option (List (List OrderSchedule) × Rng)
  | 0, r => some ([], r)
  | n + 1, r =>
    match create_individual inst r with
    | none => none
    | some (ind, r2) =>
      match initialize_population_go inst n r2 with
      | none => none
      | some (pop, r3) => some (ind :: pop, r3)

/-- `GeneticAlgorithmScheduler.initialize_population`. -/
def initialize_population (inst : SchedInstance) (r : Rng) :
    Option (List (List OrderSchedule) × Rng) :=
  initialize_population_go inst population_size r

/-- `equipment_load[eid] += duration` of the fitness loop:
`KeyError` (none) when the id was not seeded from `self.equipment`. -/
def load_update : List (String × Int) → String → Int → Option (List (String × Int))
  | [], _, _ => none
  | kv :: rest, k, d =>
    if kv.1 = k then some ((kv.1, kv.2 + d) :: rest)
    else (load_update rest k d).map (fun l => kv :: l)

/-- The inner loop of `fitness_function` accumulating machine busy time. -/
def proc_load_loop : List ProcAsgn → List (String × Int) → Option (List (String × Int))
  | [], load => some load
  | p :: ps, load =>
    match load_update load p.equipment_id (p.end_time - p.start_time) with
    | none => none
    | some load2 => proc_load_loop ps load2

/-- The main loop of `fitness_function`: schedules whose order id is unknown
or whose process list is empty are skipped (`continue`); otherwise the
completion time, the late count and the per-machine loads are accumulated. -/
def fitness_loop (orders : List Order) :
    List OrderSchedule → Int → ℕ → List (String × Int) →
      Option (Int × ℕ × List (String × Int))
  | [], tot, late, load => some (tot, late, load)
  | os :: rest, tot, late, load =>
    match orders.find? (fun o => o.id == os.order_id) with
    | none => fitness_loop orders rest tot late load
    | some o =>
      match os.processes with
      | [] => fitness_loop orders rest tot late load
      | p :: ps =>
        match proc_load_loop (p :: ps) load with
        | none => none
        | some load2 =>
          fitness_loop orders rest
            (tot + (ps.map (fun q => q.end_time)).foldl max p.end_time)
            (if (((ps.map (fun q => q.end_time)).foldl max p.end_time : ℤ) : ℚ) >
                o.delivery_date then late + 1 else late)
            load2

/-- `GeneticAlgorithmScheduler.fitness_function`.  The division
`1 / (1 + C/1000 + 500·L − 100·B)` raises `ZeroDivisionError` when the
denominator is exactly zero (`none`); otherwise the result is floored at
`0.0001`.  `B = 1 − (max(load) − min(load)) / (TIME_HORIZON · 0.5)` is not
clamped; it is 1 when there is no machine at all. -/
def fitness_function (orders : List Order) (equipment : List Equipment)
    (individual : List OrderSchedule) : Option ℚ :=
  match fitness_loop orders individual 0 0 (equipment.map (fun e => (e.id, (0 : Int)))) with
  | none => none
  | some (tot, late, load) =>
    match load.map (fun kv => kv.2) with
    | [] =>
      if (1 + (tot : ℚ) / 1000 + (late : ℚ) * 500 - 1 * 100) = 0 then none
      else some (max (1 / 10000) (1 / (1 + (tot : ℚ) / 1000 + (late : ℚ) * 500 - 1 * 100)))
    | v :: vs =>
      if (1 + (tot : ℚ) / 1000 + (late : ℚ) * 500 -
          (1 - (((vs.foldl max v : ℤ) : ℚ) - ((vs.foldl min v : ℤ) : ℚ)) /
            ((TIME_HORIZON : ℚ) * (5 / 10))) * 100) = 0 then none
      else some (max (1 / 10000)
        (1 / (1 + (tot : ℚ) / 1000 + (late : ℚ) * 500 -
          (1 - (((vs.foldl max v : ℤ) : ℚ) - ((vs.foldl min v : ℤ) : ℚ)) /
            ((TIME_HORIZON : ℚ) * (5 / 10))) * 100)))

/-- A pointwise-identity map is the identity. -/
theorem map_id_of_eq {α : Type} :
    ∀ (l : List α) (f : α → α), (∀ x ∈ l, f x = x) → l.map f = l := by
  intro l
  induction l with
  | nil => intro f _; rfl
  | cons a l ih =>
    intro f h
    simp only [List.map_cons]
    rw [h a (List.mem_cons_self _ _), ih f (fun x hx => h x (List.mem_cons_of_mem _ hx))]

/-- The closed forms below restate the fitness aggregates following the
spec's wording, to be compared with the loop implementation
(`fitness_function`). -/
def counted (orders : List Order) (os : OrderSchedule) : Bool :=
  (orders.find? (fun o => o.id == os.order_id)).isSome && !os.processes.isEmpty

/-- `max(process["end_time"] for process in processes)` (0 if empty, a case
the fitness loop never evaluates). -/
def completion_of (os : OrderSchedule) : Int :=
  match os.processes with
  | [] => 0
  | p :: ps => (ps.map (fun q => q.end_time)).foldl max p.end_time

/-- Closed form of the accumulated completion time `C`. -/
def total_completion (orders : List Order) (ind : List OrderSchedule) : Int :=
  ((ind.filter (counted orders)).map completion_of).sum

/-- Whether a counted schedule finishes after its order's due hour. -/
def is_late (orders : List Order) (os : OrderSchedule) : Bool :=
  match orders.find? (fun o => o.id == os.order_id) with
  | some o => decide (((completion_of os : ℤ) : ℚ) > o.delivery_date)
  | none => false

/-- Closed form of the late-order count `L`. -/
def late_count (orders : List Order) (ind : List OrderSchedule) : ℕ :=
  ((ind.filter (counted orders)).filter (is_late orders)).length

/-- Busy time a process list adds to one machine. -/
def procs_load (procs : List ProcAsgn) (eqid : String) : Int :=
  ((procs.filter (fun p => p.equipment_id == eqid)).map
    (fun p => p.end_time - p.start_time)).sum

/-- Closed form of one machine's accumulated load. -/
def load_of (orders : List Order) (ind : List OrderSchedule) (eqid : String) : Int :=
  ((ind.filter (counted orders)).map (fun os => procs_load os.processes eqid)).sum

/-- Closed form of the load-balance term `B` (1 for an empty machine list;
not clamped). -/
def load_balance_spec (orders : List Order) (equipment : List Equipment)
    (ind : List OrderSchedule) : ℚ :=
  match equipment.map (fun e => load_of orders ind e.id) with
  | [] => 1
  | v :: vs =>
    1 - (((vs.foldl max v : ℤ) : ℚ) - ((vs.foldl min v : ℤ) : ℚ)) /
      ((TIME_HORIZON : ℚ) * (5 / 10))

/-- Closed form of the fitness denominator `1 + C/1000 + 500·L − 100·B`. -/
def fitness_denom (orders : List Order) (equipment : List Equipment)
    (ind : List OrderSchedule) : ℚ :=
  1 + (total_completion orders ind : ℚ) / 1000 + (late_count orders ind : ℚ) * 500
    - load_balance_spec orders equipment ind * 100

/-- `load_update` on a tracked key of a duplicate-free table bumps exactly
that entry. -/
theorem load_update_spec (k : String) (d : Int) :
    ∀ (load : List (String × Int)), (load.map Prod.fst).Nodup →
      k ∈ load.map Prod.fst →
      load_update load k d =
        some (load.map (fun kv => if kv.1 = k then (kv.1, kv.2 + d) else kv)) := by
  intro load
  induction load with
  | nil =>
    intro _ h
    simp at h
  | cons kv rest ih =>
    intro hnd hk
    simp only [List.map_cons, List.nodup_cons] at hnd
    obtain ⟨hni, hnd2⟩ := hnd
    by_cases hkv : kv.1 = k
    · have hrest : rest.map (fun kv2 => if kv2.1 = k then (kv2.1, kv2.2 + d) else kv2) = rest := by
        apply map_id_of_eq
        intro kv2 hkv2
        rw [if_neg]
        intro heq
        rw [← hkv] at heq
        exact hni (heq ▸ List.mem_map_of_mem Prod.fst hkv2)
      unfold load_update
      rw [if_pos hkv, hkv]
      simp only [List.map_cons, if_pos hkv, hrest]
      rw [hkv]
    · have hk2 : k ∈ rest.map Prod.fst := by
        rcases List.mem_cons.mp hk with heq | hmem
        · exact absurd heq.symm hkv
        · exact hmem
      unfold load_update
      rw [if_neg hkv, ih hnd2 hk2]
      simp only [Option.map_some, List.map_cons, if_neg hkv]
      rfl

/-- Keys are untouched by an entry-value map. -/
theorem keys_map_values (load : List (String × Int))
    (f : String × Int → Int) :
    (load.map (fun kv => ((kv.1, f kv) : String × Int))).map Prod.fst = load.map Prod.fst := by
  rw [List.map_map]
  rfl

/-- The fitness load loop over a process list adds each machine's busy time
to its (unique) entry. -/
theorem proc_load_loop_spec :
    ∀ (procs : List ProcAsgn) (load : List (String × Int)),
      (load.map Prod.fst).Nodup →
      (∀ p ∈ procs, p.equipment_id ∈ load.map Prod.fst) →
      proc_load_loop procs load =
        some (load.map (fun kv => (kv.1, kv.2 + procs_load procs kv.1))) := by
  intro procs
  induction procs with
  | nil =>
    intro load _ _
    unfold proc_load_loop
    rw [map_id_of_eq]
    intro kv _
    have h0 : procs_load [] kv.1 = 0 := rfl
    rw [h0, add_zero]
  | cons p ps ih =>
    intro load hnd hmem
    have hstep : proc_load_loop (p :: ps) load =
        proc_load_loop ps (load.map (fun kv =>
          if kv.1 = p.equipment_id then (kv.1, kv.2 + (p.end_time - p.start_time)) else kv)) := by
      conv_lhs => unfold proc_load_loop
      rw [load_update_spec p.equipment_id (p.end_time - p.start_time) load hnd
        (hmem p (List.mem_cons_self _ _))]
    rw [hstep]
    have hnd2 : ((load.map (fun kv =>
        if kv.1 = p.equipment_id then (kv.1, kv.2 + (p.end_time - p.start_time)) else kv)).map
          Prod.fst).Nodup := by
      have hkeq : (load.map (fun kv =>
          if kv.1 = p.equipment_id then (kv.1, kv.2 + (p.end_time - p.start_time)) else kv)).map
            Prod.fst = load.map Prod.fst := by
        rw [List.map_map]
        apply List.map_congr_left
        intro kv _
        by_cases h : kv.1 = p.equipment_id <;> simp [h]
      rw [hkeq]
      exact hnd
    have hmemeq : (load.map (fun kv =>
        if kv.1 = p.equipment_id then (kv.1, kv.2 + (p.end_time - p.start_time)) else kv)).map
          Prod.fst = load.map Prod.fst := by
      rw [List.map_map]
      apply List.map_congr_left
      intro kv _
      by_cases h : kv.1 = p.equipment_id <;> simp [h]
    rw [ih _ hnd2 (fun q hq => by rw [hmemeq]; exact hmem q (List.mem_cons_of_mem _ hq))]
    rw [List.map_map]
    congr 1
    apply List.map_congr_left
    intro kv hkv2
    by_cases h : kv.1 = p.equipment_id
    · have hfil : (p :: ps).filter (fun q => q.equipment_id == kv.1) =
          p :: ps.filter (fun q => q.equipment_id == kv.1) := by
        rw [List.filter_cons, if_pos]
        simp [h]
      simp only [Function.comp_apply, if_pos h, procs_load, hfil, List.map_cons, List.sum_cons]
      rw [add_assoc]
    · have hfil : (p :: ps).filter (fun q => q.equipment_id == kv.1) =
          ps.filter (fun q => q.equipment_id == kv.1) := by
        rw [List.filter_cons, if_neg]
        simp only [beq_iff_eq]
        intro heq
        exact h heq.symm
      simp only [Function.comp_apply, if_neg h, procs_load, hfil]

/-- `fitness_loop` computes the three closed-form aggregates, offsetting the
accumulators, provided the load table is duplicate-free and covers every
machine referenced by a counted schedule. -/
theorem fitness_loop_spec (orders : List Order) :
    ∀ (ind : List OrderSchedule) (tot : Int) (late : ℕ)
      (load : List (String × Int)),
      (load.map Prod.fst).Nodup →
      (∀ os ∈ ind, counted orders os = true →
        ∀ p ∈ os.processes, p.equipment_id ∈ load.map Prod.fst) →
      fitness_loop orders ind tot late load =
        some (tot + total_completion orders ind,
          late + late_count orders ind,
          load.map (fun kv => (kv.1, kv.2 + load_of orders ind kv.1))) := by
  intro ind
  induction ind with
  | nil =>
    intro tot late load _ _
    unfold fitness_loop
    have h1 : total_completion orders [] = 0 := rfl
    have h2 : late_count orders [] = 0 := rfl
    rw [h1, h2, add_zero, add_zero, map_id_of_eq]
    intro kv _
    have h3 : load_of orders [] kv.1 = 0 := rfl
    rw [h3, add_zero]
  | cons os rest ih =>
    intro tot late load hnd hmem
    cases hfind : orders.find? (fun o => o.id == os.order_id) with
    | none =>
      have hcnt : counted orders os = false := by
        unfold counted
        rw [hfind]
        rfl
      have hstep : fitness_loop orders (os :: rest) tot late load =
          fitness_loop orders rest tot late load := by
        conv_lhs => unfold fitness_loop
        rw [hfind]
      rw [hstep, ih tot late load hnd
        (fun q hq => hmem q (List.mem_cons_of_mem _ hq))]
      have hfil : (os :: rest).filter (counted orders) =
          rest.filter (counted orders) := by
        rw [List.filter_cons, if_neg]
        simp [hcnt]
      have h1 : total_completion orders (os :: rest) = total_completion orders rest := by
        unfold total_completion
        rw [hfil]
      have h2 : late_count orders (os :: rest) = late_count orders rest := by
        unfold late_count
        rw [hfil]
      rw [h1, h2]
      have h3 : load.map (fun kv => (kv.1, kv.2 + load_of orders rest kv.1)) =
          load.map (fun kv => (kv.1, kv.2 + load_of orders (os :: rest) kv.1)) := by
        apply List.map_congr_left
        intro kv _
        have h4 : load_of orders (os :: rest) kv.1 = load_of orders rest kv.1 := by
          unfold load_of
          rw [hfil]
        rw [h4]
      rw [h3]
    | some o =>
      cases hproc : os.processes with
      | nil =>
        have hcnt : counted orders os = false := by
          unfold counted
          rw [hfind, hproc]
          rfl
        have hstep : fitness_loop orders (os :: rest) tot late load =
            fitness_loop orders rest tot late load := by
          conv_lhs => unfold fitness_loop
          rw [hfind, hproc]
        rw [hstep, ih tot late load hnd
          (fun q hq => hmem q (List.mem_cons_of_mem _ hq))]
        have hfil : (os :: rest).filter (counted orders) =
            rest.filter (counted orders) := by
          rw [List.filter_cons, if_neg]
          simp [hcnt]
        have h1 : total_completion orders (os :: rest) = total_completion orders rest := by
          unfold total_completion
          rw [hfil]
        have h2 : late_count orders (os :: rest) = late_count orders rest := by
          unfold late_count
          rw [hfil]
        rw [h1, h2]
        have h3 : load.map (fun kv => (kv.1, kv.2 + load_of orders rest kv.1)) =
            load.map (fun kv => (kv.1, kv.2 + load_of orders (os :: rest) kv.1)) := by
          apply List.map_congr_left
          intro kv _
          have h4 : load_of orders (os :: rest) kv.1 = load_of orders rest kv.1 := by
            unfold load_of
            rw [hfil]
          rw [h4]
        rw [h3]
      | cons p ps =>
        have hcnt : counted orders os = true := by
          unfold counted
          rw [hfind, hproc]
          rfl
        have hcov2 : ∀ q ∈ p :: ps, q.equipment_id ∈ load.map Prod.fst := by
          intro q hq
          exact hmem os (List.mem_cons_self _ _) hcnt q (by rw [hproc]; exact hq)
        have hpll : proc_load_loop (p :: ps) load =
            some (load.map (fun kv => (kv.1, kv.2 + procs_load (p :: ps) kv.1))) :=
          proc_load_loop_spec (p :: ps) load hnd hcov2
        have hstep : fitness_loop orders (os :: rest) tot late load =
            fitness_loop orders rest
              (tot + (ps.map (fun q => q.end_time)).foldl max p.end_time)
              (if (((ps.map (fun q => q.end_time)).foldl max p.end_time : ℤ) : ℚ) >
                  o.delivery_date then late + 1 else late)
              (load.map (fun kv => (kv.1, kv.2 + procs_load (p :: ps) kv.1))) := by
          conv_lhs => unfold fitness_loop
          rw [hfind, hproc]
          dsimp only
          rw [hpll]
        have hkeys : ((load.map (fun kv =>
            ((kv.1, kv.2 + procs_load (p :: ps) kv.1) : String × Int))).map Prod.fst) =
            load.map Prod.fst :=
          keys_map_values load (fun kv => kv.2 + procs_load (p :: ps) kv.1)
        have hnd1 : (((load.map (fun kv =>
            ((kv.1, kv.2 + procs_load (p :: ps) kv.1) : String × Int))).map Prod.fst)).Nodup := by
          rw [hkeys]
          exact hnd
        have hcov3 : ∀ os2 ∈ rest, counted orders os2 = true →
            ∀ q ∈ os2.processes, q.equipment_id ∈
              (load.map (fun kv =>
                ((kv.1, kv.2 + procs_load (p :: ps) kv.1) : String × Int))).map Prod.fst := by
          intro os2 h1 h2 q hq
          rw [hkeys]
          exact hmem os2 (List.mem_cons_of_mem _ h1) h2 q hq
        rw [hstep, ih _ _ _ hnd1 hcov3]
        have hfil : (os :: rest).filter (counted orders) =
            os :: rest.filter (counted orders) := by
          rw [List.filter_cons, if_pos hcnt]
        have hcomp : completion_of os = (ps.map (fun q => q.end_time)).foldl max p.end_time := by
          unfold completion_of
          rw [hproc]
        have h1 : total_completion orders (os :: rest) =
            completion_of os + total_completion orders rest := by
          unfold total_completion
          rw [hfil, List.map_cons, List.sum_cons]
        have h2 : late_count orders (os :: rest) =
            (if is_late orders os = true then 1 else 0) + late_count orders rest := by
          unfold late_count
          rw [hfil, List.filter_cons]
          by_cases hl : is_late orders os = true
          · rw [if_pos hl, if_pos hl, List.length_cons]
            omega
          · rw [if_neg hl, if_neg hl, zero_add]
        have hlate : is_late orders os =
            decide ((((ps.map (fun q => q.end_time)).foldl max p.end_time : ℤ) : ℚ) >
              o.delivery_date) := by
          unfold is_late
          rw [hfind, hcomp]
        have h3 : ∀ eqid, load_of orders (os :: rest) eqid =
            procs_load os.processes eqid + load_of orders rest eqid := by
          intro eqid
          unfold load_of
          rw [hfil, List.map_cons, List.sum_cons]
        simp only [Option.some.injEq, Prod.mk.injEq]
        refine ⟨by rw [h1, hcomp, add_assoc], ?_, ?_⟩
        · rw [h2, hlate]
          simp only [decide_eq_true_eq]
          by_cases hc : (((ps.map (fun q => q.end_time)).foldl max p.end_time : ℤ) : ℚ) >
              o.delivery_date
          · rw [if_pos hc, if_pos hc]
            omega
          · rw [if_neg hc, if_neg hc]
            omega
        · rw [List.map_map]
          apply List.map_congr_left
          intro kv _
          have h4 : load_of orders (os :: rest) kv.1 =
              procs_load (p :: ps) kv.1 + load_of orders rest kv.1 := by
            rw [h3 kv.1, hproc]
          rw [h4]
          simp only [Function.comp_apply]
          rw [add_assoc]

/-- Projecting the values out of the seeded-and-updated load table yields one
load per machine, in equipment order. -/
theorem seed_values (orders : List Order) (ind : List OrderSchedule)
    (equipment : List Equipment) :
    ((equipment.map (fun e => ((e.id, (0 : Int)) : String × Int))).map
        (fun kv => (kv.1, kv.2 + load_of orders ind kv.1))).map (fun kv => kv.2) =
      equipment.map (fun e => load_of orders ind e.id) := by
  rw [List.map_map, List.map_map]
  apply List.map_congr_left
  intro e _
  simp only [Function.comp_apply]
  rw [zero_add]

/-- C6: for every individual whose referenced machines are all among the
(duplicate-free) equipment ids, `fitness_function` returns
`max 10⁻⁴ (1 / D)` with `D = 1 + C/1000 + 500·L − 100·B` for the
*unclamped* balance term `B = 1 − (max(load) − min(load)) / (H/2)`
(`B = 1` when there is no machine), except that it raises
`ZeroDivisionError` (returns `none`) exactly when `D = 0`; the claim's
always-defined, clamped-`B` reading is refuted separately. -/
theorem fitness_value_and_zero_division (orders : List Order)
    (equipment : List Equipment) (ind : List OrderSchedule)
    (hnd : (equipment.map (fun e => e.id)).Nodup)
    (hcov : ∀ os ∈ ind, counted orders os = true →
      ∀ p ∈ os.processes, p.equipment_id ∈ equipment.map (fun e => e.id)) :
    fitness_function orders equipment ind =
      if fitness_denom orders equipment ind = 0 then none
      else some (max (1 / 10000) (1 / fitness_denom orders equipment ind)) := by
  have hkeys : ((equipment.map (fun e => ((e.id, (0 : Int)) : String × Int))).map Prod.fst) =
      equipment.map (fun e => e.id) := by
    rw [List.map_map]
    rfl
  have hnd2 : (((equipment.map (fun e => ((e.id, (0 : Int)) : String × Int))).map
      Prod.fst)).Nodup := by
    rw [hkeys]
    exact hnd
  have hcov2 : ∀ os ∈ ind, counted orders os = true → ∀ p ∈ os.processes,
      p.equipment_id ∈ (equipment.map (fun e => ((e.id, (0 : Int)) : String × Int))).map
        Prod.fst := by
    intro os h1 h2 q hq
    rw [hkeys]
    exact hcov os h1 h2 q hq
  have hspec := fitness_loop_spec orders ind 0 0
    (equipment.map (fun e => ((e.id, (0 : Int)) : String × Int))) hnd2 hcov2
  unfold fitness_function
  rw [hspec]
  dsimp only
  rw [seed_values orders ind equipment]
  simp only [zero_add]
  unfold fitness_denom load_balance_spec
  cases hveq : equipment.map (fun e => load_of orders ind e.id) with
  | nil => rfl
  | cons v vs => rfl

def orderC6 : Order :=
  { id := "O1", product_id := "P", quantity := 1, delivery_date := 1000000, priority := 1 }

def equipmentC6 : List Equipment :=
  [{ id := "E", name := "E", process_type := "A", production_rate := 1,
     qualified_rate := 1, unqualified_rate := 0 }]

def procC6 : ProcAsgn :=
  { process_type := "A", equipment_id := "E", start_time := 0, end_time := 99000 }

def indC6 : List OrderSchedule :=
  [{ order_id := "O1", processes := [procC6] }]

theorem fitness_value_and_zero_division_witness :
    fitness_function [orderC6] equipmentC6 indC6 =
      if fitness_denom [orderC6] equipmentC6 indC6 = 0 then none
      else some (max (1 / 10000) (1 / fitness_denom [orderC6] equipmentC6 indC6)) :=
  fitness_value_and_zero_division [orderC6] equipmentC6 indC6 (by decide) (by decide)

/-- On the individual that schedules its single order on the single machine
for hours `[0, 99000)` against a far-away due date, the fitness loop yields
`C = 99000`, `L = 0` and a perfectly balanced load (`B = 1`), so the
denominator `1 + C/1000 + 500·L − 100·B` is exactly `0` and
`fitness_function` raises `ZeroDivisionError` (`none`), refuting the claim
that the fitness value is defined for every individual. -/
theorem fitness_zero_division_on_total_completion_99000 :
    fitness_function [orderC6] equipmentC6 indC6 = none := by
  have hloop : fitness_loop [orderC6] indC6 0 0
      (equipmentC6.map (fun e => (e.id, (0 : Int)))) =
      some (99000, 0, [("E", 99000)]) := rfl
  unfold fitness_function
  rw [hloop]
  simp only [List.map_cons, List.map_nil, List.foldl_nil]
  rw [if_pos]
  unfold TIME_HORIZON
  norm_num

/-- The single machine of the determinism instance. -/
def eC9 : Equipment :=
  { id := "M1", name := "m1", process_type := "A", production_rate := 1,
    qualified_rate := 1, unqualified_rate := 0 }

def oC9 : Order :=
  { id := "O1", product_id := "P", quantity := 5, delivery_date := 100, priority := 1 }

def bomC9 : BOM :=
  { product_id := "P", components := [], process_sequence := ["A"] }

def instC9 : SchedInstance :=
  { orders := [oC9], equipment := [eC9], boms := [bomC9],
    inventory := { raw_materials := fun _ => none, finished_products := fun _ => none } }

def rngConst (c : ℕ) : Rng := { stream := fun _ => c, pos := 0 }

def procC9 (c : Int) : ProcAsgn :=
  { process_type := "A", equipment_id := "M1", start_time := c, end_time := c + 5 }

def osC9 (c : Int) : OrderSchedule :=
  { order_id := "O1", processes := [procC9 c] }

theorem pick_singleton (e : Equipment) (u w : ℚ) : pick_by_weight [e] [w] u e = e := by
  unfold pick_by_weight
  split
  · rfl
  · rfl

set_option maxHeartbeats 1600000 in
theorem create_order_schedule_singleton (c : ℕ) (hc : c < 716) :
    create_order_schedule [eC9] oC9 ["A"] 0 (rngConst c) =
      some ([procC9 (c : ℤ)], { stream := fun _ => c, pos := 2 }) := by
  unfold create_order_schedule
  have hfil : [eC9].filter (fun eq => eq.process_type == "A") = [eC9] := rfl
  rw [hfil]
  dsimp only
  have hsum : ¬ (([eC9].map (fun eq => eq.production_rate)).sum = (0 : ℚ)) := by
    simp [eC9]
  rw [if_neg hsum]
  unfold weighted_choice
  dsimp only
  simp only [List.map_cons, List.map_nil]
  rw [pick_singleton]
  have hth : (TIME_HORIZON : ℤ) - ((get_processing_time oC9 eC9 : ℕ) : ℤ) = 715 := rfl
  have hr2 : (randFloat (rngConst c)).2 = { stream := fun _ => c, pos := 1 } := rfl
  rw [hth, hr2]
  have hri : randint { stream := fun _ => c, pos := 1 } 0 715 =
      some ((c : ℤ), { stream := fun _ => c, pos := 2 }) := by
    unfold randint
    rw [if_neg (by norm_num)]
    simp [draw, Nat.mod_eq_of_lt hc]
  rw [hri]
  dsimp only
  have hrest : create_order_schedule [eC9] oC9 []
      (max 0 (c : ℤ) + ((get_processing_time oC9 eC9 : ℕ) : ℤ))
      { stream := fun _ => c, pos := 2 } =
      some ([], { stream := fun _ => c, pos := 2 }) := rfl
  rw [hrest]
  have hmax : max (0 : ℤ) (c : ℤ) = (c : ℤ) := by omega
  rw [hmax]
  rfl

theorem create_individual_instC9 (c : ℕ) (hc : c < 716) :
    create_individual instC9 (rngConst c) =
      some ([osC9 (c : ℤ)], { stream := fun _ => c, pos := 2 }) := by
  unfold create_individual
  have h1 : instC9.equipment = [eC9] := rfl
  have h2 : instC9.boms = [bomC9] := rfl
  have h3 : instC9.orders = [oC9] := rfl
  rw [h1, h2, h3]
  unfold create_individual_go
  have hlb : lookup_bom [bomC9] oC9.product_id = some bomC9 := rfl
  rw [hlb]
  dsimp only
  have hseq : bomC9.process_sequence = ["A"] := rfl
  rw [hseq, create_order_schedule_singleton c hc]
  rfl

/-- C9: the code exposes no GA seed configuration and never seeds Python's
global `random`; `create_individual` is a function of the ambient generator
state, so two runs over the identical one-order instance, whose ambient
streams differ (constant 0 versus constant 1), succeed yet return different
plans (start hour 0 versus 1), refuting run-to-run determinism. -/
theorem ga_two_runs_differ :
    ((create_individual instC9 (rngConst 0)).map (fun pr => pr.1) ≠
      (create_individual instC9 (rngConst 1)).map (fun pr => pr.1)) ∧
    (create_individual instC9 (rngConst 0)).isSome = true ∧
    (create_individual instC9 (rngConst 1)).isSome = true := by
  have h0 := create_individual_instC9 0 (by norm_num)
  have h1 := create_individual_instC9 1 (by norm_num)
  refine ⟨?_, ?_, ?_⟩
  · rw [h0, h1]
    decide
  · rw [h0]
    rfl
  · rw [h1]
    rfl

/-- `self.generations = 100`. -/
def generations : ℕ := 100

/-- Out-of-range fallback for Python list indexing that cannot fail. -/
def defaultOrderSchedule : OrderSchedule := { order_id := "", processes := [] }

def defaultProcAsgn : ProcAsgn :=
  { process_type := "", equipment_id := "", start_time := 0, end_time := 0 }

/-- `GeneticAlgorithmScheduler.crossover`: keep `parent1` with probability
0.2, otherwise splice the parents at `randint(1, len(parent1) - 1)` when
`parent1` has more than one entry. -/
def crossover (r : Rng) (parent1 parent2 : List OrderSchedule) :
    Option (List OrderSchedule × Rng) :=
  match randFloat r with
  | (u, r2) =>
    if u > 8 / 10 then some (parent1, r2)
    else if 1 < parent1.length then
      match randint r2 1 ((parent1.length : ℤ) - 1) with
      | none => none
      | some (p, r3) => some (parent1.take p.toNat ++ parent2.drop p.toNat, r3)
    else some (parent1, r2)

/-- The in-place loop shifting the successors of a mutated process: each
start becomes `max(start, previous_end + randint(0, 2))`, and the end is
recomputed as `new_start + (old_end - new_start)`, i.e. left unchanged. -/
def mutate_tail : Rng → List ProcAsgn → Int → Option (List ProcAsgn × Rng)
  | r, [], _ => some ([], r)
  | r, p :: ps, prev_end =>
    match randint r 0 2 with
    | none => none
    | some (j, r2) =>
      match mutate_tail r2 ps p.end_time with
      | none => none
      | some (tail2, r3) =>
        some ({ p with start_time := max p.start_time (prev_end + j) } :: tail2, r3)

/-- The machine-change body of `mutate`: when more than one machine handles
the process type, `random.choice` (an abstract draw modulo the candidate
count; raises on an empty candidate list) picks another machine, the
duration is recomputed from its rate and the successors are shifted. -/
def mutate_process (equipment : List Equipment)
    (individual : List OrderSchedule) (oi pi2 : ℕ) (o : Order) (r : Rng) :
    Option (List OrderSchedule × Rng) :=
  let os := individual.getD oi defaultOrderSchedule
  let p := os.processes.getD pi2 defaultProcAsgn
  let avail := equipment.filter (fun eq => eq.process_type == p.process_type)
  if 1 < avail.length then
    match avail.filter (fun eq => eq.id != p.equipment_id) with
    | [] => none
    | cand :: cands =>
      match draw r with
      | (d, r5) =>
        let neq := (cand :: cands).getD (d % (cand :: cands).length) defaultEquipment
        let p2 := { p with equipment_id := neq.id,
                           end_time := p.start_time + (get_processing_time o neq : ℤ) }
        match mutate_tail r5 (os.processes.drop (pi2 + 1)) p2.end_time with
        | none => none
        | some (tail2, r6) =>
          some (individual.set oi { os with processes := os.processes.take pi2 ++ p2 :: tail2 },
            r6)
  else some (individual, r)

/-- `GeneticAlgorithmScheduler.mutate`: with probability 0.1 pick an order
and one of its processes and hand over to `mutate_process`.
`self.boms[order.product_id]` raises `KeyError` for an unknown product. -/
def mutate (orders : List Order) (equipment : List Equipment) (boms : List BOM)
    (r : Rng) (individual : List OrderSchedule) : Option (List OrderSchedule × Rng) :=
  match randFloat r with
  | (u, r2) =>
    if u > 1 / 10 then some (individual, r2)
    else if individual.isEmpty then some (individual, r2)
    else
      match randint r2 0 ((individual.length : ℤ) - 1) with
      | none => none
      | some (oi, r3) =>
        match orders.find? (fun o =>
            o.id == (individual.getD oi.toNat defaultOrderSchedule).order_id) with
        | none => some (individual, r3)
        | some o =>
          match lookup_bom boms o.product_id with
          | none => none
          | some bom =>
            if (individual.getD oi.toNat defaultOrderSchedule).processes.isEmpty ||
                bom.process_sequence.length = 0 then
              some (individual, r3)
            else
              match randint r3 0
                  (((individual.getD oi.toNat defaultOrderSchedule).processes.length : ℤ) - 1) with
              | none => none
              | some (pi2, r4) =>
                mutate_process equipment individual oi.toNat pi2.toNat o r4

/-- `[(self.fitness_function(ind), ind) for ind in population]`; any raising
fitness evaluation aborts the comprehension. -/
def compute_scores (orders : List Order) (equipment : List Equipment) :
    List (List OrderSchedule) → Option (List (ℚ × List OrderSchedule))
  | [] => some []
  | ind :: rest =>
    match fitness_function orders equipment ind with
    | none => none
    | some f => (compute_scores orders equipment rest).map (fun l => (f, ind) :: l)

/-- Python's `max(..., key=lambda x: x[0])`: the first maximal element. -/
def pyMax : List (ℚ × List OrderSchedule) → (ℚ × List OrderSchedule) →
    (ℚ × List OrderSchedule)
  | [], best => best
  | a :: as, best => pyMax as (if a.1 > best.1 then a else best)

/-- `list.remove(x)`: drop the first element equal to `x`. -/
def remove_first : List (ℚ × List OrderSchedule) → (ℚ × List OrderSchedule) →
    List (ℚ × List OrderSchedule)
  | [], _ => []
  | a :: as, x => if a = x then as else a :: remove_first as x

/-- `random.sample(l, k)`: `k` distinct elements, each drawn uniformly from
the remaining ones (one abstract draw per element). -/
def sample_go : ℕ → List (ℚ × List OrderSchedule) → Rng →
    List (ℚ × List OrderSchedule) × Rng
  | 0, _, r => ([], r)
  | _ + 1, [], r => ([], r)
  | k + 1, a :: as, r =>
    match draw r with
    | (d, r2) =>
      match sample_go k ((a :: as).eraseIdx (d % (a :: as).length)) r2 with
      | (rest, r3) => ((a :: as).getD (d % (a :: as).length) (0, []) :: rest, r3)

/-- The `while len(new_population) < self.population_size` tournament loop
of `evolve`; the fuel is an upper bound on the remaining iterations (each
appends at least one child). -/
def evolve_fill (orders : List Order) (equipment : List Equipment) (boms : List BOM)
    (scores : List (ℚ × List OrderSchedule)) :
    ℕ → List (List OrderSchedule) → Rng → Option (List (List OrderSchedule) × Rng)
  | 0, acc, r => some (acc, r)
  | fuel + 1, acc, r =>
    if population_size ≤ acc.length then some (acc, r)
    else
      match sample_go (min 5 scores.length) scores r with
      | (t, r2) =>
        match t with
        | [] => none
        | a :: as =>
          let m1 := pyMax as a
          match remove_first t m1 with
          | [] => none
          | b :: bs =>
            let m2 := pyMax bs b
            match crossover r2 m1.2 m2.2 with
            | none => none
            | some (c1, r3) =>
              match mutate orders equipment boms r3 c1 with
              | none => none
              | some (c1m, r4) =>
                if (acc ++ [c1m]).length < population_size then
                  match crossover r4 m2.2 m1.2 with
                  | none => none
                  | some (c2, r5) =>
                    match mutate orders equipment boms r5 c2 with
                    | none => none
                    | some (c2m, r6) =>
                      evolve_fill orders equipment boms scores fuel
                        ((acc ++ [c1m]) ++ [c2m]) r6
                else evolve_fill orders equipment boms scores fuel (acc ++ [c1m]) r4

/-- `GeneticAlgorithmScheduler.evolve`: score the population (fitness may
raise), sort descending by fitness (stable, Python `sort(reverse=True)`),
keep the best individual and fill the rest by tournament selection. -/
def evolve (orders : List Order) (equipment : List Equipment) (boms : List BOM)
    (population : List (List OrderSchedule)) (r : Rng) :
    Option (List (List OrderSchedule) × Rng) :=
  match compute_scores orders equipment population with
  | none => none
  | some scores =>
    match scores.mergeSort (fun a b => decide (b.1 ≤ a.1)) with
    | [] => none
    | best :: rest =>
      evolve_fill orders equipment boms (best :: rest) population_size [best.2] r

/-- The `for gen in range(self.generations)` loop of the GA `solve`,
tracking the best individual seen (strictly better fitness replaces). -/
def ga_gen_loop (orders : List Order) (equipment : List Equipment) (boms : List BOM) :
    ℕ → List (List OrderSchedule) → ℚ → List OrderSchedule → Rng →
      Option (List OrderSchedule)
  | 0, _, _, best, _ => some best
  | g + 1, pop, bestf, best, r =>
    match evolve orders equipment boms pop r with
    | none => none
    | some (pop2, r2) =>
      match compute_scores orders equipment pop2 with
      | none => none
      | some scores2 =>
        match scores2 with
        | [] => none
        | a :: as =>
          if (pyMax as a).1 > bestf then
            ga_gen_loop orders equipment boms g pop2 (pyMax as a).1 (pyMax as a).2 r2
          else
            ga_gen_loop orders equipment boms g pop2 bestf best r2

/-- `GeneticAlgorithmScheduler.solve`: initialize the population (any raised
exception propagates), then run 100 generations starting from
`best_fitness = 0`, `best_individual = population[0]`. -/
def GA_solve (inst : SchedInstance) (r : Rng) : Option (List OrderSchedule) :=
  match initialize_population inst r with
  | none => none
  | some (pop, r2) =>
    match pop with
    | [] => none
    | first :: _ =>
      ga_gen_loop inst.orders inst.equipment inst.boms generations pop 0 first r2

/-- `pulp.LpStatus` names. -/
inductive LpStatusCode where
  | NotSolved
  | Optimal
  | Infeasible
  | Unbounded
  | Undefined
deriving DecidableEq

/-- `SchedulingModel.solve`: the CBC call either raises (caught: `False`) or
yields a status and a variable assignment; only the status name `Optimal`
triggers `_extract_solution` and `True`. -/
def SchedulingModel_solve (inst : SchedInstance)
    (outcome : Except String (LpStatusCode × (ℕ → ℕ → ℕ → Bool))) :
    Bool × Option (List SolutionItem) :=
  match outcome with
  | .error _ => (false, none)
  | .ok (st, x) =>
    if st = LpStatusCode.Optimal then (true, some (extract_solution inst x))
    else (false, none)

/-- Keys of a Python dict in insertion order: first occurrences. -/
def dedupFirst : List String → List String
  | [] => []
  | k :: ks => k :: (dedupFirst ks).filter (fun k2 => k2 != k)

/-- `SchedulingModel.get_schedule`: group the solution items by order id
(insertion order), then emit one plan entry per known order. -/
def exact_get_schedule (orders : List Order) (solution : List SolutionItem) :
    List PlanEntry :=
  (dedupFirst (solution.map (fun it => it.order_id))).filterMap (fun oid =>
    match orders.find? (fun o => o.id == oid) with
    | none => none
    | some o =>
      some { order_id := oid, product_id := o.product_id, quantity := o.quantity,
             delivery_date := o.delivery_date,
             processes := (solution.filter (fun it => it.order_id == oid)).map
               (fun it => { process_type := it.process_type,
                            equipment_id := it.equipment_id,
                            start_time := (it.start_time : ℤ),
                            end_time := (it.end_time : ℤ) }) })

/-- `GeneticAlgorithmScheduler.get_schedule`: one plan entry per schedule
whose order id is known. -/
def ga_get_schedule (orders : List Order) (solution : List OrderSchedule) :
    List PlanEntry :=
  solution.filterMap (fun os =>
    match orders.find? (fun o => o.id == os.order_id) with
    | none => none
    | some o =>
      some { order_id := os.order_id, product_id := o.product_id,
             quantity := o.quantity, delivery_date := o.delivery_date,
             processes := os.processes })

/-- The GA leg of `main`'s batch scheduling together with its exception
handler: a raising GA run degrades to the default empty plan. -/
def ga_fallback_schedule (inst : SchedInstance) (r : Rng) : List PlanEntry :=
  match GA_solve inst r with
  | none => []
  | some best => ga_get_schedule inst.orders best

/-- `main`'s per-batch scheduling: the exact model first, the GA on the
same released orders when it fails. -/
def schedule_batch (inst : SchedInstance)
    (outcome : Except String (LpStatusCode × (ℕ → ℕ → ℕ → Bool))) (r : Rng) :
    List PlanEntry :=
  match SchedulingModel_solve inst outcome with
  | (true, some sol) => exact_get_schedule inst.orders sol
  | _ => ga_fallback_schedule inst r

/-- C5: the exact scheduler reports success and yields the extracted plan
precisely when the MIP outcome is status `Optimal`; on any other status,
and on any exception raised during solving, it reports failure and `main`
hands the same released orders unchanged to the genetic-algorithm
fallback (whose own failure degrades the batch to the default empty
plan). -/
theorem solve_optimal_iff_and_ga_fallback (inst : SchedInstance)
    (outcome : Except String (LpStatusCode × (ℕ → ℕ → ℕ → Bool))) (r : Rng) :
    ((SchedulingModel_solve inst outcome).1 = true ↔
      ∃ x, outcome = Except.ok (LpStatusCode.Optimal, x)) ∧
    (∀ x, outcome = Except.ok (LpStatusCode.Optimal, x) →
      schedule_batch inst outcome r =
        exact_get_schedule inst.orders (extract_solution inst x)) ∧
    ((SchedulingModel_solve inst outcome).1 = false →
      schedule_batch inst outcome r = ga_fallback_schedule inst r) := by
  refine ⟨?_, ?_, ?_⟩
  · constructor
    · intro h
      match outcome with
      | Except.error s => simp [SchedulingModel_solve] at h
      | Except.ok (st, x) =>
        refine ⟨x, ?_⟩
        by_cases hst : st = LpStatusCode.Optimal
        · rw [hst]
        · simp [SchedulingModel_solve, if_neg hst] at h
    · rintro ⟨x, hx⟩
      rw [hx]
      simp [SchedulingModel_solve]
  · intro x hx
    rw [hx]
    simp [schedule_batch, SchedulingModel_solve]
  · intro h
    match outcome with
    | Except.error s => rfl
    | Except.ok (st, x) =>
      by_cases hst : st = LpStatusCode.Optimal
      · rw [hst] at h
        simp [SchedulingModel_solve] at h
      · simp [schedule_batch, SchedulingModel_solve, if_neg hst]

theorem solve_optimal_iff_and_ga_fallback_witness :
    (((SchedulingModel_solve instC9 (Except.error "solver failure")).1 = true ↔
      ∃ x : ℕ → ℕ → ℕ → Bool, (Except.error "solver failure" :
        Except String (LpStatusCode × (ℕ → ℕ → ℕ → Bool))) =
          Except.ok (LpStatusCode.Optimal, x)) ∧
    (∀ x, (Except.error "solver failure" :
        Except String (LpStatusCode × (ℕ → ℕ → ℕ → Bool))) =
          Except.ok (LpStatusCode.Optimal, x) →
      schedule_batch instC9 (Except.error "solver failure") (rngConst 0) =
        exact_get_schedule instC9.orders (extract_solution instC9 x)) ∧
    ((SchedulingModel_solve instC9 (Except.error "solver failure")).1 = false →
      schedule_batch instC9 (Except.error "solver failure") (rngConst 0) =
        ga_fallback_schedule instC9 (rngConst 0))) :=
  solve_optimal_iff_and_ga_fallback instC9 (Except.error "solver failure") (rngConst 0)

/-- The machine of the oversized-order instance (rate 1). -/
def eC5 : Equipment :=
  { id := "M1", name := "m1", process_type := "A", production_rate := 1,
    qualified_rate := 1, unqualified_rate := 0 }

def oC5 : Order :=
  { id := "O1", product_id := "P", quantity := 10000, delivery_date := 100, priority := 1 }

def bomC5 : BOM :=
  { product_id := "P", components := [], process_sequence := ["A"] }

def instC5 : SchedInstance :=
  { orders := [oC5], equipment := [eC5], boms := [bomC5],
    inventory := { raw_materials := fun _ => none, finished_products := fun _ => none } }

/-- A 10000-unit order on a rate-1 machine needs 10000 processing hours,
beyond the 720-hour horizon: `randint(0, 720 - 10000)` raises `ValueError`
inside `create_individual`, so the GA fallback raises instead of returning
a plan and `main`'s handler yields the default empty plan. -/
theorem ga_fallback_raises_on_oversized_order :
    (SchedulingModel_solve instC5
      (Except.ok (LpStatusCode.Infeasible, fun _ _ _ => false))).1 = false ∧
    GA_solve instC5 (rngConst 0) = none ∧
    schedule_batch instC5
      (Except.ok (LpStatusCode.Infeasible, fun _ _ _ => false)) (rngConst 0) = [] := by
  have hcos : create_order_schedule [eC5] oC5 ["A"] 0 (rngConst 0) = none := by
    unfold create_order_schedule
    have hfil : [eC5].filter (fun eq => eq.process_type == "A") = [eC5] := rfl
    rw [hfil]
    dsimp only
    have hsum : ¬ (([eC5].map (fun eq => eq.production_rate)).sum = (0 : ℚ)) := by
      simp [eC5]
    rw [if_neg hsum]
    unfold weighted_choice
    dsimp only
    simp only [List.map_cons, List.map_nil]
    rw [pick_singleton]
    have hth : (TIME_HORIZON : ℤ) - ((get_processing_time oC5 eC5 : ℕ) : ℤ) = -9280 := rfl
    rw [hth]
    have hri : randint (randFloat (rngConst 0)).2 0 (-9280) = none := by
      unfold randint
      rw [if_pos]
      norm_num
    rw [hri]
  have hci : create_individual instC5 (rngConst 0) = none := by
    unfold create_individual
    have h1 : instC5.equipment = [eC5] := rfl
    have h2 : instC5.boms = [bomC5] := rfl
    have h3 : instC5.orders = [oC5] := rfl
    rw [h1, h2, h3]
    unfold create_individual_go
    have hlb : lookup_bom [bomC5] oC5.product_id = some bomC5 := rfl
    rw [hlb]
    dsimp only
    have hseq : bomC5.process_sequence = ["A"] := rfl
    rw [hseq, hcos]
  have hip : initialize_population instC5 (rngConst 0) = none := by
    unfold initialize_population population_size
    show initialize_population_go instC5 (49 + 1) (rngConst 0) = none
    unfold initialize_population_go
    rw [hci]
  have hga : GA_solve instC5 (rngConst 0) = none := by
    unfold GA_solve
    rw [hip]
  refine ⟨rfl, hga, ?_⟩
  unfold schedule_batch
  have hsolve : SchedulingModel_solve instC5
      (Except.ok (LpStatusCode.Infeasible, fun _ _ _ => false)) = (false, none) := rfl
  rw [hsolve]
  unfold ga_fallback_schedule
  rw [hga]
